import Mathlib

namespace Pennylane

/-- Modelled from the spec: `Util.hpp` is not part of the sources; §4.H defines
`exp2(k)` as `2^k` in the natural unsigned integer type. -/
def exp2 (k : ℕ) : ℕ := 2 ^ k

/-- Modelled from the spec: `Util.hpp` is not part of the sources; §4.H defines
`max_decimal_for_qubit(w, n) = 2^(n−1−w)`.  Natural subtraction agrees with the
C++ `size_t` arithmetic whenever `w < n`, which all theorems below assume. -/
def maxDecimalForQubit (qubitIndex qubits : ℕ) : ℕ := 2 ^ (qubits - 1 - qubitIndex)

/-- `Pennylane::generateBitPatterns` (`Apply.cpp`, lines 43–55): start from the
one-element vector `[0]`; iterate the qubit indices from the **last** to the
**first**; for index `w` append `indices[j] + maxDecimalForQubit w qubits` for
every element already present, in order.  The C++ loop runs `i` from
`qubitIndices.size()-1` down to `0`, so recursing on the head performs the
head's doubling step last, exactly as the loop does. -/
def generateBitPatterns : List ℕ → ℕ → List ℕ
  | [], _ => [0]
  | w :: ws, qubits =>
    let indices := generateBitPatterns ws qubits
    indices ++ indices.map (fun x => x + maxDecimalForQubit w qubits)

/-- `Pennylane::getIndicesAfterExclusion` (`Apply.cpp`, lines 32–41): insert
`0, …, qubits-1` into an ordered `std::set`, erase every excluded index, and
return the remaining ones in ascending order. -/
def getIndicesAfterExclusion (indicesToExclude : List ℕ) (qubits : ℕ) : List ℕ :=
  (List.range qubits).filter (fun i => i ∉ indicesToExclude)

/-- The list of sums `e + i` over every pair of an element `e` of the external
sequence and an element `i` of the internal sequence, in enumeration order. -/
def pairwiseSums (external internal : List ℕ) : List ℕ :=
  external.flatMap (fun e => internal.map (fun i => e + i))

/-- The set of all subset sums `∑ i ∈ S, 2 ^ i` over subsets `S` of a finite
set `B` of bit positions. -/
def subsetSums (B : Finset ℕ) : Finset ℕ :=
  B.powerset.image (fun S => ∑ i ∈ S, 2 ^ i)

/-- The bit positions addressed by a wire list: wire `w` of an `n`-qubit
register owns bit `n − 1 − w` of the amplitude index. -/
def wireBits (ws : List ℕ) (n : ℕ) : Finset ℕ :=
  (ws.map (fun w => n - 1 - w)).toFinset

/-- Modelled from the spec: §4.A's wording of the doubling procedure, used as
the specification side of C2: "start with {0}; iterate wires from last to
first; for each wire `w` let `v = 2^(n−1−w)`; append `(x + v)` for every `x`
currently in the sequence". -/
def doublingProcedure (wires : List ℕ) (n : ℕ) : List ℕ :=
  wires.reverse.foldl (fun seq w => seq ++ seq.map (fun x => x + 2 ^ (n - 1 - w))) [0]

/-! ### Gate kernels

Amplitude buffers (`CplxType*`) are modelled as total functions `ℕ → ℂ`;
`QState` abbreviates that type.  In-place writes become `Function.update`. -/
abbrev QState := ℕ → ℂ

/-- One iteration of the external loop of `Pennylane::AbstractGate::applyKernel`
(`Gates.cpp`, lines 47–71): gather `v[pos] = shiftedState[index]` for each
internal index, then for every row `i` overwrite `shiftedState[indices[i]]`
with `∑ j, matrix[i * size + j] * v[j]` (the C++ zeroes the slot and
accumulates with `+=`, which amounts to writing the row sum). -/
def applyMatrixBlock (matrix : List ℂ) (indices : List ℕ) (e : ℕ) (st : QState) : QState :=
  let v := indices.map (fun index => st (e + index))
  (List.range indices.length).foldl
    (fun s i =>
      Function.update s (e + indices.getD i 0)
        (((List.range indices.length).map
          (fun j => matrix.getD (i * indices.length + j) 0 * v.getD j 0)).sum))
    st

/-- `Pennylane::AbstractGate::applyKernel` (`Gates.cpp`, lines 47–71): the
generic gather–multiply–scatter kernel, looping over all external indices. -/
def applyKernelGeneric (matrix : List ℂ) (indices externalIndices : List ℕ)
    (st : QState) : QState :=
  externalIndices.foldl (fun s e => applyMatrixBlock matrix indices e s) st

/-- Simultaneous two-point linear transform: the common shape of every
specialised kernel in `Gates.cpp`, acting on the amplitudes at two addresses
`a` and `b` with a 2×2 coefficient matrix. -/
def twoPointUpdate (a b : ℕ) (m00 m01 m10 m11 : ℂ) (st : QState) : QState :=
  Function.update (Function.update st a (m00 * st a + m01 * st b)) b
    (m10 * st a + m11 * st b)

/-- A `L×L` row-major matrix that is the identity except for a 2×2 block in
rows/columns `p` and `q`; every explicit gate matrix in `Gates.cpp` has this
shape. -/
def blockMatrix (L p q : ℕ) (m00 m01 m10 m11 : ℂ) : List ℂ :=
  (List.range (L * L)).map (fun idx =>
    let i := idx / L
    let j := idx % L
    if i = p ∧ j = p then m00
    else if i = p ∧ j = q then m01
    else if i = q ∧ j = p then m10
    else if i = q ∧ j = q then m11
    else if i = j then 1 else 0)

/-! ### Gate catalogue (`Gates.cpp`)

Constants from `Util.hpp` are modelled from the spec (§4.H, §9: `√2⁻¹`, `i`,
and `e^{iπ/4}` are compile-time constants).  Matrices are the row-major
literals of `Gates.cpp`; specialised kernels are the per-gate `applyKernel`
bodies. -/
/-- Modelled from the spec: the compile-time constant `√2⁻¹` (`Util.hpp` is
not in the sources). -/

noncomputable def SQRT2INV : ℂ := ((Real.sqrt 2)⁻¹ : ℝ)

/-- Modelled from the spec: the compile-time constant `i` (`IMAG` in the C++
sources; `Util.hpp` is not in the sources). -/
def IMAG : ℂ := Complex.I

/-- `std::swap(shiftedState[a], shiftedState[b])`. -/
def swapAmps (a b : ℕ) (st : QState) : QState :=
  Function.update (Function.update st a (st b)) b (st a)

/-- `Pennylane::XGate::applyKernel` (`Gates.cpp` 92–97). -/
def applyKernelX (indices externalIndices : List ℕ) (st : QState) : QState :=
  externalIndices.foldl
    (fun s e => swapAmps (e + indices.getD 0 0) (e + indices.getD 1 0) s) st

/-- `Pennylane::YGate::applyKernel` (`Gates.cpp` 112–119): saves `v0`, writes
`-IMAG * shiftedState[indices[1]]` to slot 0 and `IMAG * v0` to slot 1. -/
def applyKernelY (indices externalIndices : List ℕ) (st : QState) : QState :=
  externalIndices.foldl
    (fun s e =>
      let v0 := s (e + indices.getD 0 0)
      Function.update
        (Function.update s (e + indices.getD 0 0) (-IMAG * s (e + indices.getD 1 0)))
        (e + indices.getD 1 0) (IMAG * v0)) st

/-- `Pennylane::ZGate::applyKernel` (`Gates.cpp` 134–139): `amp[1] *= -1`. -/
def applyKernelZ (indices externalIndices : List ℕ) (st : QState) : QState :=
  externalIndices.foldl
    (fun s e =>
      Function.update s (e + indices.getD 1 0) (s (e + indices.getD 1 0) * (-1))) st

/-- `Pennylane::HadamardGate::applyKernel` (`Gates.cpp` 154–162). -/
noncomputable def applyKernelH (indices externalIndices : List ℕ) (st : QState) : QState :=
  externalIndices.foldl
    (fun s e =>
      let v0 := s (e + indices.getD 0 0)
      let v1 := s (e + indices.getD 1 0)
      Function.update
        (Function.update s (e + indices.getD 0 0) (SQRT2INV * (v0 + v1)))
        (e + indices.getD 1 0) (SQRT2INV * (v0 - v1))) st

/-- `Pennylane::SGate::applyKernel` (`Gates.cpp` 177–182): `amp[1] *= IMAG`. -/
def applyKernelS (indices externalIndices : List ℕ) (st : QState) : QState :=
  externalIndices.foldl
    (fun s e =>
      Function.update s (e + indices.getD 1 0) (s (e + indices.getD 1 0) * IMAG)) st

/-- `Pennylane::TGate::shift = pow(M_E, CplxType(0, M_PI/4))` (`Gates.cpp` 193). -/
noncomputable def tGateShift : ℂ := Complex.exp (Complex.I * (Real.pi / 4))

/-- `Pennylane::TGate::applyKernel` (`Gates.cpp` 199–204): `amp[1] *= shift`. -/
noncomputable def applyKernelT (indices externalIndices : List ℕ) (st : QState) : QState :=
  externalIndices.foldl
    (fun s e =>
      Function.update s (e + indices.getD 1 0) (s (e + indices.getD 1 0) * tGateShift)) st

/-- `RotationZGate::first = pow(M_E, CplxType(0, -rotationAngle/2))` (`Gates.cpp` 250). -/
noncomputable def rzFirst (θ : ℝ) : ℂ := Complex.exp (Complex.I * (-θ / 2))

/-- `RotationZGate::second = pow(M_E, CplxType(0, rotationAngle/2))` (`Gates.cpp` 251). -/
noncomputable def rzSecond (θ : ℝ) : ℂ := Complex.exp (Complex.I * (θ / 2))

/-- `Pennylane::RotationZGate::applyKernel` (`Gates.cpp` 257–263):
`amp[0] *= first; amp[1] *= second` sequentially. -/
noncomputable def applyKernelRZ (θ : ℝ) (indices externalIndices : List ℕ) (st : QState) : QState :=
  externalIndices.foldl
    (fun s e =>
      let s1 := Function.update s (e + indices.getD 0 0) (s (e + indices.getD 0 0) * rzFirst θ)
      Function.update s1 (e + indices.getD 1 0) (s1 (e + indices.getD 1 0) * rzSecond θ)) st

/-- `PhaseShiftGate::shift = pow(M_E, CplxType(0, rotationAngle))` (`Gates.cpp` 275). -/
noncomputable def phaseShiftFactor (θ : ℝ) : ℂ := Complex.exp (Complex.I * θ)

/-- `Pennylane::PhaseShiftGate::applyKernel` (`Gates.cpp` 281–286). -/
noncomputable def applyKernelPhaseShift (θ : ℝ) (indices externalIndices : List ℕ) (st : QState) : QState :=
  externalIndices.foldl
    (fun s e =>
      Function.update s (e + indices.getD 1 0)
        (s (e + indices.getD 1 0) * phaseShiftFactor θ)) st

/-- `Pennylane::CNOTGate::applyKernel` (`Gates.cpp` 330–335): swap
`amp[2]` and `amp[3]`. -/
def applyKernelCNOT (indices externalIndices : List ℕ) (st : QState) : QState :=
  externalIndices.foldl
    (fun s e => swapAmps (e + indices.getD 2 0) (e + indices.getD 3 0) s) st

/-- `Pennylane::SWAPGate::applyKernel` (`Gates.cpp` 352–357): swap
`amp[1]` and `amp[2]`. -/
def applyKernelSWAP (indices externalIndices : List ℕ) (st : QState) : QState :=
  externalIndices.foldl
    (fun s e => swapAmps (e + indices.getD 1 0) (e + indices.getD 2 0) s) st

/-- `Pennylane::CZGate::applyKernel` (`Gates.cpp` 374–379): `amp[3] *= -1`. -/
def applyKernelCZ (indices externalIndices : List ℕ) (st : QState) : QState :=
  externalIndices.foldl
    (fun s e =>
      Function.update s (e + indices.getD 3 0) (s (e + indices.getD 3 0) * (-1))) st

/-- `RotationXGate::c = (cos(angle/2), 0)` (`Gates.cpp` 216; also CRX, 391). -/
noncomputable def rxC (θ : ℝ) : ℂ := ((Real.cos (θ / 2) : ℝ) : ℂ)

/-- `RotationXGate::js = (0, sin(-angle/2))` (`Gates.cpp` 217; also CRX, 392). -/
noncomputable def rxJs (θ : ℝ) : ℂ := ((Real.sin (-θ / 2) : ℝ) : ℂ) * Complex.I

/-- `Pennylane::CRotationXGate::applyKernel` (`Gates.cpp` 400–408). -/
noncomputable def applyKernelCRX (θ : ℝ) (indices externalIndices : List ℕ) (st : QState) : QState :=
  externalIndices.foldl
    (fun s e =>
      let v0 := s (e + indices.getD 2 0)
      let v1 := s (e + indices.getD 3 0)
      Function.update
        (Function.update s (e + indices.getD 2 0) (rxC θ * v0 + rxJs θ * v1))
        (e + indices.getD 3 0) (rxJs θ * v0 + rxC θ * v1)) st

/-- `RotationYGate::c = (cos(angle/2), 0)` (`Gates.cpp` 233; also CRY, 420). -/
noncomputable def ryC (θ : ℝ) : ℂ := ((Real.cos (θ / 2) : ℝ) : ℂ)

/-- `RotationYGate::s = (sin(angle/2), 0)` (`Gates.cpp` 234; also CRY, 421). -/
noncomputable def ryS (θ : ℝ) : ℂ := ((Real.sin (θ / 2) : ℝ) : ℂ)

/-- `Pennylane::CRotationYGate::applyKernel` (`Gates.cpp` 429–437). -/
noncomputable def applyKernelCRY (θ : ℝ) (indices externalIndices : List ℕ) (st : QState) : QState :=
  externalIndices.foldl
    (fun s e =>
      let v0 := s (e + indices.getD 2 0)
      let v1 := s (e + indices.getD 3 0)
      Function.update
        (Function.update s (e + indices.getD 2 0) (ryC θ * v0 - ryS θ * v1))
        (e + indices.getD 3 0) (ryS θ * v0 + ryC θ * v1)) st

/-- `Pennylane::CRotationZGate::applyKernel` (`Gates.cpp` 458–464):
`amp[2] *= first; amp[3] *= second` sequentially. -/
noncomputable def applyKernelCRZ (θ : ℝ) (indices externalIndices : List ℕ) (st : QState) : QState :=
  externalIndices.foldl
    (fun s e =>
      let s1 := Function.update s (e + indices.getD 2 0) (s (e + indices.getD 2 0) * rzFirst θ)
      Function.update s1 (e + indices.getD 3 0) (s1 (e + indices.getD 3 0) * rzSecond θ)) st

/-- `GeneralRotationGate::r1 = c·e^{i(−φ−ω)/2}` (`Gates.cpp` 300; also CRot, 478). -/
noncomputable def rotR1 (phi θ ω : ℝ) : ℂ :=
  ((Real.cos (θ / 2) : ℝ) : ℂ) * Complex.exp (Complex.I * ((-phi - ω) / 2))

/-- `GeneralRotationGate::r2 = −s·e^{i(φ−ω)/2}` (`Gates.cpp` 301; also CRot, 479). -/
noncomputable def rotR2 (phi θ ω : ℝ) : ℂ :=
  -((Real.sin (θ / 2) : ℝ) : ℂ) * Complex.exp (Complex.I * ((phi - ω) / 2))

/-- `GeneralRotationGate::r3 = s·e^{i(−φ+ω)/2}` (`Gates.cpp` 302; also CRot, 480). -/
noncomputable def rotR3 (phi θ ω : ℝ) : ℂ :=
  ((Real.sin (θ / 2) : ℝ) : ℂ) * Complex.exp (Complex.I * ((-phi + ω) / 2))

/-- `GeneralRotationGate::r4 = c·e^{i(φ+ω)/2}` (`Gates.cpp` 303; also CRot, 481). -/
noncomputable def rotR4 (phi θ ω : ℝ) : ℂ :=
  ((Real.cos (θ / 2) : ℝ) : ℂ) * Complex.exp (Complex.I * ((phi + ω) / 2))

/-- `Pennylane::CGeneralRotationGate::applyKernel` (`Gates.cpp` 489–497). -/
noncomputable def applyKernelCRot (phi θ ω : ℝ) (indices externalIndices : List ℕ) (st : QState) : QState :=
  externalIndices.foldl
    (fun s e =>
      let v0 := s (e + indices.getD 2 0)
      let v1 := s (e + indices.getD 3 0)
      Function.update
        (Function.update s (e + indices.getD 2 0) (rotR1 phi θ ω * v0 + rotR2 phi θ ω * v1))
        (e + indices.getD 3 0) (rotR3 phi θ ω * v0 + rotR4 phi θ ω * v1)) st

/-- `Pennylane::ToffoliGate::applyKernel` (`Gates.cpp` 524–529): swap
`amp[6]` and `amp[7]`. -/
def applyKernelToffoli (indices externalIndices : List ℕ) (st : QState) : QState :=
  externalIndices.foldl
    (fun s e => swapAmps (e + indices.getD 6 0) (e + indices.getD 7 0) s) st

/-- `Pennylane::CSWAPGate::applyKernel` (`Gates.cpp` 550–555): swap
`amp[5]` and `amp[6]`. -/
def applyKernelCSWAP (indices externalIndices : List ℕ) (st : QState) : QState :=
  externalIndices.foldl
    (fun s e => swapAmps (e + indices.getD 5 0) (e + indices.getD 6 0) s) st

/-- `Pennylane::XGate::matrix` (`Gates.cpp` 88–90). -/
def xMatrix : List ℂ := [0, 1, 1, 0]

/-- `Pennylane::YGate::matrix` (`Gates.cpp` 108–110). -/
def yMatrix : List ℂ := [0, -IMAG, IMAG, 0]

/-- `Pennylane::ZGate::matrix` (`Gates.cpp` 130–132). -/
def zMatrix : List ℂ := [1, 0, 0, -1]

/-- `Pennylane::HadamardGate::matrix` (`Gates.cpp` 150–152). -/
noncomputable def hMatrix : List ℂ := [SQRT2INV, SQRT2INV, SQRT2INV, -SQRT2INV]

/-- `Pennylane::SGate::matrix` (`Gates.cpp` 173–175). -/
def sMatrix : List ℂ := [1, 0, 0, IMAG]

/-- `Pennylane::TGate::matrix` (`Gates.cpp` 195–197). -/
noncomputable def tMatrix : List ℂ := [1, 0, 0, tGateShift]

/-- `Pennylane::RotationXGate::matrix` (`Gates.cpp` 218–220). -/
noncomputable def rxMatrix (θ : ℝ) : List ℂ := [rxC θ, rxJs θ, rxJs θ, rxC θ]

/-- `Pennylane::RotationYGate::matrix` (`Gates.cpp` 235–237). -/
noncomputable def ryMatrix (θ : ℝ) : List ℂ := [ryC θ, -ryS θ, ryS θ, ryC θ]

/-- `Pennylane::RotationZGate::matrix` (`Gates.cpp` 252–254). -/
noncomputable def rzMatrix (θ : ℝ) : List ℂ := [rzFirst θ, 0, 0, rzSecond θ]

/-- `Pennylane::PhaseShiftGate::matrix` (`Gates.cpp` 276–278). -/
noncomputable def phaseShiftMatrix (θ : ℝ) : List ℂ := [1, 0, 0, phaseShiftFactor θ]

/-- `Pennylane::GeneralRotationGate::matrix` (`Gates.cpp` 304–306). -/
noncomputable def rotMatrix (phi θ ω : ℝ) : List ℂ :=
  [rotR1 phi θ ω, rotR2 phi θ ω, rotR3 phi θ ω, rotR4 phi θ ω]

/-- `Pennylane::CNOTGate::matrix` (`Gates.cpp` 324–328). -/
def cnotMatrix : List ℂ :=
  [1, 0, 0, 0,
   0, 1, 0, 0,
   0, 0, 0, 1,
   0, 0, 1, 0]

/-- `Pennylane::SWAPGate::matrix` (`Gates.cpp` 346–350). -/
def swapMatrix : List ℂ :=
  [1, 0, 0, 0,
   0, 0, 1, 0,
   0, 1, 0, 0,
   0, 0, 0, 1]

/-- `Pennylane::CZGate::matrix` (`Gates.cpp` 368–372). -/
def czMatrix : List ℂ :=
  [1, 0, 0, 0,
   0, 1, 0, 0,
   0, 0, 1, 0,
   0, 0, 0, -1]

/-- `Pennylane::CRotationXGate::matrix` (`Gates.cpp` 393–397). -/
noncomputable def crxMatrix (θ : ℝ) : List ℂ :=
  [1, 0, 0, 0,
   0, 1, 0, 0,
   0, 0, rxC θ, rxJs θ,
   0, 0, rxJs θ, rxC θ]

/-- `Pennylane::CRotationYGate::matrix` (`Gates.cpp` 422–426). -/
noncomputable def cryMatrix (θ : ℝ) : List ℂ :=
  [1, 0, 0, 0,
   0, 1, 0, 0,
   0, 0, ryC θ, -ryS θ,
   0, 0, ryS θ, ryC θ]

/-- `Pennylane::CRotationZGate::matrix` (`Gates.cpp` 451–455). -/
noncomputable def crzMatrix (θ : ℝ) : List ℂ :=
  [1, 0, 0, 0,
   0, 1, 0, 0,
   0, 0, rzFirst θ, 0,
   0, 0, 0, rzSecond θ]

/-- `Pennylane::CGeneralRotationGate::matrix` (`Gates.cpp` 482–486). -/
noncomputable def crotMatrix (phi θ ω : ℝ) : List ℂ :=
  [1, 0, 0, 0,
   0, 1, 0, 0,
   0, 0, rotR1 phi θ ω, rotR2 phi θ ω,
   0, 0, rotR3 phi θ ω, rotR4 phi θ ω]

/-- `Pennylane::ToffoliGate::matrix` (`Gates.cpp` 514–522). -/
def toffoliMatrix : List ℂ :=
  [1, 0, 0, 0, 0, 0, 0, 0,
   0, 1, 0, 0, 0, 0, 0, 0,
   0, 0, 1, 0, 0, 0, 0, 0,
   0, 0, 0, 1, 0, 0, 0, 0,
   0, 0, 0, 0, 1, 0, 0, 0,
   0, 0, 0, 0, 0, 1, 0, 0,
   0, 0, 0, 0, 0, 0, 0, 1,
   0, 0, 0, 0, 0, 0, 1, 0]

/-- `Pennylane::CSWAPGate::matrix` (`Gates.cpp` 540–548). -/
def cswapMatrix : List ℂ :=
  [1, 0, 0, 0, 0, 0, 0, 0,
   0, 1, 0, 0, 0, 0, 0, 0,
   0, 0, 1, 0, 0, 0, 0, 0,
   0, 0, 0, 1, 0, 0, 0, 0,
   0, 0, 0, 0, 1, 0, 0, 0,
   0, 0, 0, 0, 0, 0, 1, 0,
   0, 0, 0, 0, 0, 1, 0, 0,
   0, 0, 0, 0, 0, 0, 0, 1]

/-- The closed family of gates in `Gates.cpp` that define both a matrix and a
specialised `applyKernel` override (all gates except RX, RY, Rot and
QubitUnitary, which fall back to the generic matrix kernel). -/
inductive SpecialisedGate : Type where
  | X | Y | Z | H | S | T
  | RZ (θ : ℝ) | PhaseShift (θ : ℝ)
  | CNOT | SWAP | CZ
  | CRX (θ : ℝ) | CRY (θ : ℝ) | CRZ (θ : ℝ) | CRot (phi θ ω : ℝ)
  | Toffoli | CSWAP

/-- Arity (`AbstractGate::numQubits`) of each specialised gate. -/
def numQubitsOf : SpecialisedGate → ℕ
  | .X | .Y | .Z | .H | .S | .T | .RZ _ | .PhaseShift _ => 1
  | .CNOT | .SWAP | .CZ | .CRX _ | .CRY _ | .CRZ _ | .CRot _ _ _ => 2
  | .Toffoli | .CSWAP => 3

/-- The matrix (`asMatrix`) of each specialised gate, as in `Gates.cpp`. -/
noncomputable def matrixOf : SpecialisedGate → List ℂ
  | .X => xMatrix
  | .Y => yMatrix
  | .Z => zMatrix
  | .H => hMatrix
  | .S => sMatrix
  | .T => tMatrix
  | .RZ θ => rzMatrix θ
  | .PhaseShift θ => phaseShiftMatrix θ
  | .CNOT => cnotMatrix
  | .SWAP => swapMatrix
  | .CZ => czMatrix
  | .CRX θ => crxMatrix θ
  | .CRY θ => cryMatrix θ
  | .CRZ θ => crzMatrix θ
  | .CRot phi θ ω => crotMatrix phi θ ω
  | .Toffoli => toffoliMatrix
  | .CSWAP => cswapMatrix

/-- The specialised `applyKernel` of each gate, as in `Gates.cpp`. -/
noncomputable def kernelOf : SpecialisedGate → List ℕ → List ℕ → QState → QState
  | .X => applyKernelX
  | .Y => applyKernelY
  | .Z => applyKernelZ
  | .H => applyKernelH
  | .S => applyKernelS
  | .T => applyKernelT
  | .RZ θ => applyKernelRZ θ
  | .PhaseShift θ => applyKernelPhaseShift θ
  | .CNOT => applyKernelCNOT
  | .SWAP => applyKernelSWAP
  | .CZ => applyKernelCZ
  | .CRX θ => applyKernelCRX θ
  | .CRY θ => applyKernelCRY θ
  | .CRZ θ => applyKernelCRZ θ
  | .CRot phi θ ω => applyKernelCRot phi θ ω
  | .Toffoli => applyKernelToffoli
  | .CSWAP => applyKernelCSWAP

/-! ### Dispatcher, gate instances and the apply driver -/
/-- The error taxonomy of §6/§7 of the spec.  Each C++ `std::invalid_argument`
throw site is mapped to its spec kind. -/

inductive Err : Type where
  | DimensionMismatch
  | ShapeMismatch
  | ArityMismatch
  | UnknownGate
  | BadParameterCount
  | NonDifferentiable
deriving DecidableEq

/-- A constructed gate (`AbstractGate`): arity, matrix (`asMatrix`), the
`applyKernel` entry point (taking the inverse flag, as in `Apply.cpp` line 74),
the `applyGenerator` entry point and the generator scaling factor.  The last
three members are declared in `Gates.hpp`, which is not in the sources, and
are modelled from the spec where used. -/
structure GateInstance : Type where
  numQubits : ℕ
  matrix : List ℂ
  kernel : List ℕ → List ℕ → Bool → QState → QState
  generator : List ℕ → List ℕ → QState → QState
  generatorScalingFactor : ℝ

/-- Row-major conjugate transpose of an `L×L` matrix. -/
def conjTranspose (m : List ℂ) (L : ℕ) : List ℂ :=
  (List.range (L * L)).map
    (fun idx => (starRingEnd ℂ) (m.getD ((idx % L) * L + idx / L) 0))

/-- Modelled from the spec: §4.F (the generic kernel "performs adjoint by
conjugate-transposing before multiplication") and §4.B (specialised kernels
make the conjugate-equivalent adjustment, which agrees with the adjoint
matrix).  The inverse-flag branch of `applyKernel` is declared in `Gates.hpp`,
which is not in the sources, so the inverse case is modelled uniformly as the
generic kernel on the conjugate-transposed matrix; the forward case is the
gate's kernel from `Gates.cpp`. -/
noncomputable def mkGate (numQubits : ℕ) (matrix : List ℂ)
    (fwd : List ℕ → List ℕ → QState → QState)
    (gen : List ℕ → List ℕ → QState → QState) (s : ℝ) : GateInstance :=
  { numQubits := numQubits
    matrix := matrix
    kernel := fun indices ext inverse st =>
      if inverse then applyKernelGeneric (conjTranspose matrix (2 ^ numQubits)) indices ext st
      else fwd indices ext st
    generator := gen
    generatorScalingFactor := s }

/-- Modelled from the spec: trivial generator for the gates whose generator is
never used (non-parameterised gates, and the multi-parameter gates rejected by
the adjoint engine before any generator call; §4.B defines generators only for
the single-parameter rotations and PhaseShift). -/
def trivialGenerator : List ℕ → List ℕ → QState → QState := fun _ _ st => st

/-- Modelled from the spec: §4.B "PhaseShift generator is (I − Z)/2 with
s = 1"; `(I − Z)/2 = diag(0, 1)` zeroes the amplitude at internal slot 0. -/
def applyGeneratorPhaseShift (indices ext : List ℕ) (st : QState) : QState :=
  ext.foldl (fun s e => Function.update s (e + indices.getD 0 0) 0) st

/-- Modelled from the spec: §4.B "controlled-rotations use the controlled
generator projected onto the |1⟩ control subspace": zero the control-0 block
(slots 0, 1) and apply the rotation generator on the control-1 block. -/
def applyGeneratorCRX (indices ext : List ℕ) (st : QState) : QState :=
  ext.foldl
    (fun s e =>
      swapAmps (e + indices.getD 2 0) (e + indices.getD 3 0)
        (Function.update (Function.update s (e + indices.getD 0 0) 0)
          (e + indices.getD 1 0) 0)) st

/-- Modelled from the spec: controlled PauliY generator on the |1⟩ control
subspace (see `applyGeneratorCRX`). -/
def applyGeneratorCRY (indices ext : List ℕ) (st : QState) : QState :=
  ext.foldl
    (fun s e =>
      let s0 := Function.update (Function.update s (e + indices.getD 0 0) 0)
        (e + indices.getD 1 0) 0
      let v0 := s0 (e + indices.getD 2 0)
      Function.update
        (Function.update s0 (e + indices.getD 2 0) (-IMAG * s0 (e + indices.getD 3 0)))
        (e + indices.getD 3 0) (IMAG * v0)) st

/-- Modelled from the spec: controlled PauliZ generator on the |1⟩ control
subspace (see `applyGeneratorCRX`). -/
def applyGeneratorCRZ (indices ext : List ℕ) (st : QState) : QState :=
  ext.foldl
    (fun s e =>
      Function.update
        (Function.update (Function.update s (e + indices.getD 0 0) 0)
          (e + indices.getD 1 0) 0)
        (e + indices.getD 3 0)
        ((Function.update (Function.update s (e + indices.getD 0 0) 0)
          (e + indices.getD 1 0) 0) (e + indices.getD 3 0) * (-1))) st

/-- Modelled from the spec: §4.B "RY generator is PauliY with s = 1/2"; the
member `RotationYGate::generatorScalingFactor` is declared in `Gates.hpp`
(not in the sources).  `Apply.cpp` line 188 reads this constant for every
gate. -/
noncomputable def RotationYGate_generatorScalingFactor : ℝ := 1 / 2

/-- `validateLength` (`Gates.cpp` 34–38): throws when the parameter count is
wrong; the spec maps this throw to `BadParameterCount`. -/
def validateLength (parameters : List ℝ) (requiredLength : ℕ) : Bool :=
  parameters.length == requiredLength

/-- `Pennylane::XGate::create` (`Gates.cpp` 83–86). -/
noncomputable def XGate_create (parameters : List ℝ) : Except Err GateInstance :=
  if validateLength parameters 0 then
    .ok (mkGate 1 xMatrix applyKernelX trivialGenerator 0)
  else .error .BadParameterCount

/-- `Pennylane::YGate::create` (`Gates.cpp` 103–106). -/
noncomputable def YGate_create (parameters : List ℝ) : Except Err GateInstance :=
  if validateLength parameters 0 then
    .ok (mkGate 1 yMatrix applyKernelY trivialGenerator 0)
  else .error .BadParameterCount

/-- `Pennylane::ZGate::create` (`Gates.cpp` 125–128). -/
noncomputable def ZGate_create (parameters : List ℝ) : Except Err GateInstance :=
  if validateLength parameters 0 then
    .ok (mkGate 1 zMatrix applyKernelZ trivialGenerator 0)
  else .error .BadParameterCount

/-- `Pennylane::HadamardGate::create` (`Gates.cpp` 145–148). -/
noncomputable def HadamardGate_create (parameters : List ℝ) : Except Err GateInstance :=
  if validateLength parameters 0 then
    .ok (mkGate 1 hMatrix applyKernelH trivialGenerator 0)
  else .error .BadParameterCount

/-- `Pennylane::SGate::create` (`Gates.cpp` 168–171). -/
noncomputable def SGate_create (parameters : List ℝ) : Except Err GateInstance :=
  if validateLength parameters 0 then
    .ok (mkGate 1 sMatrix applyKernelS trivialGenerator 0)
  else .error .BadParameterCount

/-- `Pennylane::TGate::create` (`Gates.cpp` 188–191). -/
noncomputable def TGate_create (parameters : List ℝ) : Except Err GateInstance :=
  if validateLength parameters 0 then
    .ok (mkGate 1 tMatrix applyKernelT trivialGenerator 0)
  else .error .BadParameterCount

/-- `Pennylane::RotationXGate::create` (`Gates.cpp` 210–213); RX has no
specialised kernel, so the forward path is the generic matrix kernel.  Its
generator is PauliX with `s = 1/2` (spec §4.B). -/
noncomputable def RotationXGate_create (parameters : List ℝ) : Except Err GateInstance :=
  if validateLength parameters 1 then
    .ok (mkGate 1 (rxMatrix (parameters.getD 0 0))
      (applyKernelGeneric (rxMatrix (parameters.getD 0 0))) applyKernelX (1 / 2))
  else .error .BadParameterCount

/-- `Pennylane::RotationYGate::create` (`Gates.cpp` 227–230); RY has no
specialised kernel.  Its generator is PauliY with `s = 1/2` (spec §4.B). -/
noncomputable def RotationYGate_create (parameters : List ℝ) : Except Err GateInstance :=
  if validateLength parameters 1 then
    .ok (mkGate 1 (ryMatrix (parameters.getD 0 0))
      (applyKernelGeneric (ryMatrix (parameters.getD 0 0))) applyKernelY
      RotationYGate_generatorScalingFactor)
  else .error .BadParameterCount

/-- `Pennylane::RotationZGate::create` (`Gates.cpp` 244–247).  Its generator
is PauliZ with `s = 1/2` (spec §4.B). -/
noncomputable def RotationZGate_create (parameters : List ℝ) : Except Err GateInstance :=
  if validateLength parameters 1 then
    .ok (mkGate 1 (rzMatrix (parameters.getD 0 0))
      (applyKernelRZ (parameters.getD 0 0)) applyKernelZ (1 / 2))
  else .error .BadParameterCount

/-- `Pennylane::PhaseShiftGate::create` (`Gates.cpp` 269–272).  Its generator
is `(I − Z)/2` with `s = 1` (spec §4.B). -/
noncomputable def PhaseShiftGate_create (parameters : List ℝ) : Except Err GateInstance :=
  if validateLength parameters 1 then
    .ok (mkGate 1 (phaseShiftMatrix (parameters.getD 0 0))
      (applyKernelPhaseShift (parameters.getD 0 0)) applyGeneratorPhaseShift 1)
  else .error .BadParameterCount

/-- `Pennylane::GeneralRotationGate::create` (`Gates.cpp` 292–295); Rot has no
specialised kernel, and the adjoint engine rejects it before any generator
use. -/
noncomputable def GeneralRotationGate_create (parameters : List ℝ) : Except Err GateInstance :=
  if validateLength parameters 3 then
    .ok (mkGate 1 (rotMatrix (parameters.getD 0 0) (parameters.getD 1 0) (parameters.getD 2 0))
      (applyKernelGeneric
        (rotMatrix (parameters.getD 0 0) (parameters.getD 1 0) (parameters.getD 2 0)))
      trivialGenerator 0)
  else .error .BadParameterCount

/-- `Pennylane::CNOTGate::create` (`Gates.cpp` 319–322). -/
noncomputable def CNOTGate_create (parameters : List ℝ) : Except Err GateInstance :=
  if validateLength parameters 0 then
    .ok (mkGate 2 cnotMatrix applyKernelCNOT trivialGenerator 0)
  else .error .BadParameterCount

/-- `Pennylane::SWAPGate::create` (`Gates.cpp` 341–344). -/
noncomputable def SWAPGate_create (parameters : List ℝ) : Except Err GateInstance :=
  if validateLength parameters 0 then
    .ok (mkGate 2 swapMatrix applyKernelSWAP trivialGenerator 0)
  else .error .BadParameterCount

/-- `Pennylane::CZGate::create` (`Gates.cpp` 363–366). -/
noncomputable def CZGate_create (parameters : List ℝ) : Except Err GateInstance :=
  if validateLength parameters 0 then
    .ok (mkGate 2 czMatrix applyKernelCZ trivialGenerator 0)
  else .error .BadParameterCount

/-- `Pennylane::CRotationXGate::create` (`Gates.cpp` 385–388).  Controlled
generator (spec §4.B); the spec states no scaling factor for the controlled
rotations, and no claim depends on the value, so `1/2` is used. -/
noncomputable def CRotationXGate_create (parameters : List ℝ) : Except Err GateInstance :=
  if validateLength parameters 1 then
    .ok (mkGate 2 (crxMatrix (parameters.getD 0 0))
      (applyKernelCRX (parameters.getD 0 0)) applyGeneratorCRX (1 / 2))
  else .error .BadParameterCount

/-- `Pennylane::CRotationYGate::create` (`Gates.cpp` 414–417). -/
noncomputable def CRotationYGate_create (parameters : List ℝ) : Except Err GateInstance :=
  if validateLength parameters 1 then
    .ok (mkGate 2 (cryMatrix (parameters.getD 0 0))
      (applyKernelCRY (parameters.getD 0 0)) applyGeneratorCRY (1 / 2))
  else .error .BadParameterCount

/-- `Pennylane::CRotationZGate::create` (`Gates.cpp` 443–446). -/
noncomputable def CRotationZGate_create (parameters : List ℝ) : Except Err GateInstance :=
  if validateLength parameters 1 then
    .ok (mkGate 2 (crzMatrix (parameters.getD 0 0))
      (applyKernelCRZ (parameters.getD 0 0)) applyGeneratorCRZ (1 / 2))
  else .error .BadParameterCount

/-- `Pennylane::CGeneralRotationGate::create` (`Gates.cpp` 470–473). -/
noncomputable def CGeneralRotationGate_create (parameters : List ℝ) : Except Err GateInstance :=
  if validateLength parameters 3 then
    .ok (mkGate 2
      (crotMatrix (parameters.getD 0 0) (parameters.getD 1 0) (parameters.getD 2 0))
      (applyKernelCRot (parameters.getD 0 0) (parameters.getD 1 0) (parameters.getD 2 0))
      trivialGenerator 0)
  else .error .BadParameterCount

/-- `Pennylane::ToffoliGate::create` (`Gates.cpp` 509–512). -/
noncomputable def ToffoliGate_create (parameters : List ℝ) : Except Err GateInstance :=
  if validateLength parameters 0 then
    .ok (mkGate 3 toffoliMatrix applyKernelToffoli trivialGenerator 0)
  else .error .BadParameterCount

/-- `Pennylane::CSWAPGate::create` (`Gates.cpp` 535–538). -/
noncomputable def CSWAPGate_create (parameters : List ℝ) : Except Err GateInstance :=
  if validateLength parameters 0 then
    .ok (mkGate 3 cswapMatrix applyKernelCSWAP trivialGenerator 0)
  else .error .BadParameterCount

/-- The complex entries built by `ThreeQubitUnitary::create` (`Gates.cpp`
562–570): `CplxType(parameters[i], parameters[i+1])` for `i = 0, 2, 4, …`.
An odd-length parameter list makes the C++ read one element out of bounds
(undefined); the model reads `0` there, and no claim exercises that case. -/
def qubitUnitaryEntries (parameters : List ℝ) : List ℂ :=
  (List.range ((parameters.length + 1) / 2)).map
    (fun k => ⟨parameters.getD (2 * k) 0, parameters.getD (2 * k + 1) 0⟩)

/-- The arity computation of `ThreeQubitUnitary::create` (`Gates.cpp`
572–573): `int numQubits = 0; while (size >>= 1) ++numQubits;` over
`size = parameters.size()`, i.e. `⌊log₂ size⌋`. -/
def ThreeQubitUnitary_numQubits (size : ℕ) : ℕ := Nat.log2 size

/-- `Pennylane::ThreeQubitUnitary::create` (`Gates.cpp` 561–578): no
parameter-count validation; arity from `ThreeQubitUnitary_numQubits`. -/
noncomputable def ThreeQubitUnitary_create (parameters : List ℝ) : Except Err GateInstance :=
  let unitary := qubitUnitaryEntries parameters
  let numQubits := ThreeQubitUnitary_numQubits parameters.length
  .ok (mkGate numQubits unitary (applyKernelGeneric unitary) trivialGenerator 0)

/-- `createDispatchTable` (`Gates.cpp` 592–616): the label-to-constructor
mapping, with exactly the 21 registered gate types. -/
noncomputable def dispatchTable : List (String × (List ℝ → Except Err GateInstance)) :=
  [("PauliX", XGate_create),
   ("PauliY", YGate_create),
   ("PauliZ", ZGate_create),
   ("Hadamard", HadamardGate_create),
   ("S", SGate_create),
   ("T", TGate_create),
   ("RX", RotationXGate_create),
   ("RY", RotationYGate_create),
   ("RZ", RotationZGate_create),
   ("PhaseShift", PhaseShiftGate_create),
   ("Rot", GeneralRotationGate_create),
   ("CNOT", CNOTGate_create),
   ("SWAP", SWAPGate_create),
   ("CZ", CZGate_create),
   ("CRX", CRotationXGate_create),
   ("CRY", CRotationYGate_create),
   ("CRZ", CRotationZGate_create),
   ("CRot", CGeneralRotationGate_create),
   ("Toffoli", ToffoliGate_create),
   ("CSWAP", CSWAPGate_create),
   ("QubitUnitary", ThreeQubitUnitary_create)]

/-- `Pennylane::constructGate` (`Gates.cpp` 620–626): look the label up in the
dispatch table (case-sensitively); absent labels raise `UnknownGate`. -/
noncomputable def constructGate (label : String) (parameters : List ℝ) :
    Except Err GateInstance :=
  match dispatchTable.find? (fun entry => entry.1 == label) with
  | none => .error .UnknownGate
  | some entry => entry.2 parameters

/-- `Pennylane::StateVector` (`StateVector.hpp`, declared outside the
sources): an amplitude buffer and its length, as used by `Apply.cpp`. -/
structure StateVector : Type where
  arr : QState
  length : ℕ

/-- `Pennylane::constructAndApplyOperation` (`Apply.cpp` 57–75): construct the
gate, check the wire count against the gate's arity (`ArityMismatch`), build
the internal and external index sets and invoke the kernel. -/
noncomputable def constructAndApplyOperation (state : StateVector) (opLabel : String)
    (opWires : List ℕ) (opParams : List ℝ) (inverse : Bool) (qubits : ℕ) :
    Except Err StateVector :=
  match constructGate opLabel opParams with
  | .error e => .error e
  | .ok gate =>
    if gate.numQubits ≠ opWires.length then .error .ArityMismatch
    else
      let internalIndices := generateBitPatterns opWires qubits
      let externalWires := getIndicesAfterExclusion opWires qubits
      let externalIndices := generateBitPatterns externalWires qubits
      .ok { state with arr := gate.kernel internalIndices externalIndices inverse state.arr }

/-- The loop of `Pennylane::apply` (`Apply.cpp` 110–112), iterating the
operation index.  The first failing step stops the loop; the state mutated so
far is kept (no rollback, spec §4.E).  `inverse[i]` is read unchecked in the
C++ (its length is never validated), so an out-of-range read — undefined
behaviour in the source — is modelled as `false`; no theorem exercises it. -/
noncomputable def applyLoop (ops : List String) (wires : List (List ℕ))
    (params : List (List ℝ)) (inverse : List Bool) (qubits : ℕ) :
    List ℕ → StateVector → StateVector × Option Err
  | [], state => (state, none)
  | i :: rest, state =>
    match constructAndApplyOperation state (ops.getD i "") (wires.getD i [])
        (params.getD i []) (inverse.getD i false) qubits with
    | .error e => (state, some e)
    | .ok next => applyLoop ops wires params inverse qubits rest next

/-- `Pennylane::apply` (`Apply.cpp` 91–114): validate the qubit count and the
state length (`DimensionMismatch`), then that `ops`, `wires` and `params` have
equal lengths (`ShapeMismatch` — the C++ never checks `inverse.size()`), then
run the loop. -/
noncomputable def apply (state : StateVector) (ops : List String)
    (wires : List (List ℕ)) (params : List (List ℝ)) (inverse : List Bool)
    (qubits : ℕ) : StateVector × Option Err :=
  if qubits ≤ 0 then (state, some .DimensionMismatch)
  else if state.length ≠ exp2 qubits then (state, some .DimensionMismatch)
  else if ops.length ≠ wires.length ∨ ops.length ≠ params.length then
    (state, some .ShapeMismatch)
  else applyLoop ops wires params inverse qubits (List.range ops.length) state

/-! ### Adjoint-Jacobian engine (`Apply.cpp` 116–226)

`adjointJacobian` works imperatively on raw buffers: `new CplxType[...]` and
`memcpy` allocate copies of the caller's buffer, and all gate applications
mutate buffers in place.  To state frame properties faithfully, buffers live
in an explicit heap (a list of `QState`), and a `SVRef` is a buffer id plus
the stored length — the image of a C++ `Pennylane::StateVector` whose `arr`
points into the heap.  `delete[]` does not change buffer contents, so frees
(including the `delete[]` bugs the spec notes in §9) are no-ops here. -/
/-- A state vector whose buffer lives in the heap: buffer id and length. -/

structure SVRef : Type where
  arr : ℕ
  length : ℕ

/-- Read a heap buffer (a dangling id reads the zero buffer; no theorem
depends on that case). -/
def heapGet (h : List QState) (r : ℕ) : QState := h.getD r (fun _ => 0)

/-- Overwrite a heap buffer in place. -/
def heapSet (h : List QState) (r : ℕ) (b : QState) : List QState := h.set r b

/-- `Pennylane::apply` acting on a heap-resident state vector: run the pure
`apply` on the buffer and write the (possibly partially mutated) result
back — on a throw the mutation already performed stays, as in the C++. -/
noncomputable def applyHeap (h : List QState) (sv : SVRef) (ops : List String)
    (wires : List (List ℕ)) (params : List (List ℝ)) (inverse : List Bool)
    (qubits : ℕ) : List QState × Option Err :=
  match apply ⟨heapGet h sv.arr, sv.length⟩ ops wires params inverse qubits with
  | (st, err) => (heapSet h sv.arr st.arr, err)

/-- `Pennylane::constructAndApplyOperation` on a heap-resident state vector;
the gate construction and arity check precede any mutation, so on a throw the
heap is unchanged. -/
noncomputable def constructAndApplyOperationHeap (h : List QState) (sv : SVRef)
    (opLabel : String) (opWires : List ℕ) (opParams : List ℝ) (inverse : Bool)
    (qubits : ℕ) : List QState × Option Err :=
  match constructAndApplyOperation ⟨heapGet h sv.arr, sv.length⟩ opLabel opWires
      opParams inverse qubits with
  | .error e => (h, some e)
  | .ok st => (heapSet h sv.arr st.arr, none)

/-- `Pennylane::applyGateGenerator` (`Apply.cpp` 77–89) on a heap-resident
state vector: build the index sets and apply the gate's generator in place. -/
noncomputable def applyGateGeneratorHeap (h : List QState) (gate : GateInstance)
    (sv : SVRef) (opWires : List ℕ) (qubits : ℕ) : List QState :=
  let internalIndices := generateBitPatterns opWires qubits
  let externalWires := getIndicesAfterExclusion opWires qubits
  let externalIndices := generateBitPatterns externalWires qubits
  heapSet h sv.arr (gate.generator internalIndices externalIndices (heapGet h sv.arr))

/-- Modelled from the spec: §4.H `inner_product(a, b) = Σ conj(a[i])·b[i]`
(`Pennylane::inner_product` lives in `Util.hpp`, which is not in the
sources). -/
noncomputable def inner_product (a b : QState) (len : ℕ) : ℂ :=
  ∑ i ∈ Finset.range len, (starRingEnd ℂ) (a i) * b i

/-- The observable-seeding loop of `adjointJacobian` (`Apply.cpp` 143–160):
for each observable, allocate a copy of `|λ⟩` and apply the observable to it
once, collecting the copies in `lambdas`.  A throw propagates, leaving the
copies allocated so far in place. -/
noncomputable def adjObsLoop (observables : List String) (obsParams : List (List ℝ))
    (obsWires : List (List ℕ)) (lambdaSV : SVRef) :
    List ℕ → List QState → List SVRef → List QState × List SVRef × Option Err
  | [], h, acc => (h, acc, none)
  | i :: rest, h, acc =>
    let sv : SVRef := ⟨h.length, lambdaSV.length⟩
    let h1 := h ++ [heapGet h lambdaSV.arr]
    match constructAndApplyOperationHeap h1 sv (observables.getD i "")
        (obsWires.getD i []) (obsParams.getD i []) false 2 with
    | (h2, some e) => (h2, acc, some e)
    | (h2, none) => adjObsLoop observables obsParams obsWires lambdaSV rest h2 (acc ++ [sv])

/-- The Jacobian-writing loop of `adjointJacobian` (`Apply.cpp` 196–200):
`jac[j * |trainable| + trainableParamNumber] = -2 · scalingFactor · Im ⟨bⱼ|μ'⟩`
for every observable index `j`. -/
noncomputable def adjJacWrite (h : List QState) (lambdas : List SVRef) (mu : SVRef)
    (numTrainable : ℕ) (trainableParamNumber : ℤ) (scalingFactor : ℝ)
    (jac : ℤ → ℝ) : ℤ → ℝ :=
  (List.range lambdas.length).foldl
    (fun jc j =>
      Function.update jc (Int.ofNat j * Int.ofNat numTrainable + trainableParamNumber)
        (-2 * scalingFactor *
          (inner_product (heapGet h (lambdas.getD j ⟨0, 0⟩).arr)
            (heapGet h mu.arr) mu.length).im))
    jac

/-- The `if (i > 0)` loop of `adjointJacobian` (`Apply.cpp` 208–218): apply
`Uᵢ†` to every `|bⱼ⟩`; a throw propagates. -/
noncomputable def adjLambdasLoop (opLabel : String) (wires : List ℕ)
    (params : List ℝ) : List SVRef → List QState → List QState × Option Err
  | [], h => (h, none)
  | sv :: rest, h =>
    match constructAndApplyOperationHeap h sv opLabel wires params true 2 with
    | (h1, some e) => (h1, some e)
    | (h1, none) => adjLambdasLoop opLabel wires params rest h1

/-- The backward sweep of `adjointJacobian` (`Apply.cpp` 162–221), iterating
the operation index from last to first.  Per step: a parameter list of length
greater than one throws `NonDifferentiable` (this check precedes the
state-preparation label check); otherwise a non-state-preparation operation
copies `|λ⟩` into `|μ⟩`, updates `|λ⟩ ← Uᵢ†|λ⟩`, handles the trainable branch
(the scaling factor read is hardcoded to
`RotationYGate::generatorScalingFactor`, `Apply.cpp` 188), and for `i > 0`
updates every `|bⱼ⟩`; operations labelled `QubitStateVector`/`BasisState`
with at most one parameter are skipped entirely. -/
noncomputable def adjBackLoop (operations : List String) (opParams : List (List ℝ))
    (opWires : List (List ℕ)) (trainableParams : List ℤ) (lambdaSV : SVRef)
    (lambdas : List SVRef) :
    List ℕ → List QState → (ℤ → ℝ) → ℤ → ℤ → List QState × (ℤ → ℝ) × Option Err
  | [], h, jac, _, _ => (h, jac, none)
  | i :: rest, h, jac, trainableParamNumber, paramNumber =>
    if (opParams.getD i []).length > 1 then
      (h, jac, some Err.NonDifferentiable)
    else if (operations.getD i "") ≠ "QubitStateVector" ∧
        (operations.getD i "") ≠ "BasisState" then
      let mu : SVRef := ⟨h.length, lambdaSV.length⟩
      let h1 := h ++ [heapGet h lambdaSV.arr]
      match constructAndApplyOperationHeap h1 lambdaSV (operations.getD i "")
          (opWires.getD i []) (opParams.getD i []) true 2 with
      | (h2, some e) => (h2, jac, some e)
      | (h2, none) =>
        let afterParam :
            (List QState × (ℤ → ℝ) × ℤ × ℤ) ⊕ (List QState × (ℤ → ℝ) × Option Err) :=
          if (opParams.getD i []) ≠ [] then
            if paramNumber ∈ trainableParams then
              match constructGate (operations.getD i "") (opParams.getD i []) with
              | .error e => .inr (h2, jac, some e)
              | .ok gate =>
                let scalingFactor := RotationYGate_generatorScalingFactor
                let h3 := applyGateGeneratorHeap h2 gate mu (opWires.getD i []) 2
                let jac1 := adjJacWrite h3 lambdas mu trainableParams.length
                  trainableParamNumber scalingFactor jac
                .inl (h3, jac1, trainableParamNumber - 1, paramNumber - 1)
            else .inl (h2, jac, trainableParamNumber, paramNumber - 1)
          else .inl (h2, jac, trainableParamNumber, paramNumber)
        match afterParam with
        | .inr out => out
        | .inl (h4, jac2, tpn1, pn1) =>
          if i > 0 then
            match adjLambdasLoop (operations.getD i "") (opWires.getD i [])
                (opParams.getD i []) lambdas h4 with
            | (h5, some e) => (h5, jac2, some e)
            | (h5, none) =>
              adjBackLoop operations opParams opWires trainableParams lambdaSV lambdas
                rest h5 jac2 tpn1 pn1
          else
            adjBackLoop operations opParams opWires trainableParams lambdaSV lambdas
              rest h4 jac2 tpn1 pn1
    else
      adjBackLoop operations opParams opWires trainableParams lambdaSV lambdas
        rest h jac trainableParamNumber paramNumber

/-- `Pennylane::adjointJacobian` (`Apply.cpp` 116–226).  The C++ hardcodes
`num_qubits = 2` (a TODO the spec notes in §9).  `trainableParamNumber` is
`size_t` in the C++ and starts at `trainableParams.size() - 1`; it is modelled
as `ℤ` (for an empty trainable list the C++ value wraps around, but it is then
never read, since `std::find` on an empty list cannot succeed).  The final
`delete[]` loop (with its uninitialised index, spec §9) frees buffers without
changing their contents and is a no-op here. -/
noncomputable def adjointJacobian (h0 : List QState) (phi : SVRef) (jac : ℤ → ℝ)
    (observables : List String) (obsParams : List (List ℝ))
    (obsWires : List (List ℕ)) (operations : List String)
    (opParams : List (List ℝ)) (opWires : List (List ℕ))
    (trainableParams : List ℤ) (paramNumber : ℤ) :
    List QState × (ℤ → ℝ) × Option Err :=
  let num_qubits : ℕ := 2
  let trainableParamNumber : ℤ := (trainableParams.length : ℤ) - 1
  let lambdaSV : SVRef := ⟨h0.length, phi.length⟩
  let h1 := h0 ++ [heapGet h0 phi.arr]
  let inverses := List.replicate operations.length false
  match applyHeap h1 lambdaSV operations opWires opParams inverses num_qubits with
  | (h2, some e) => (h2, jac, some e)
  | (h2, none) =>
    match adjObsLoop observables obsParams obsWires lambdaSV
        (List.range observables.length) h2 [] with
    | (h3, _, some e) => (h3, jac, some e)
    | (h3, lambdas, none) =>
      adjBackLoop operations opParams opWires trainableParams lambdaSV lambdas
        ((List.range operations.length).reverse) h3 jac trainableParamNumber paramNumber

example : generateBitPatterns [0] 2 = [0, 2] := by decide

example : generateBitPatterns [0, 1] 2 = [0, 1, 2, 3] := by decide

example : generateBitPatterns [1] 2 = [0, 1] := by decide

example : generateBitPatterns [1, 0] 2 = [0, 2, 1, 3] := by decide

example : getIndicesAfterExclusion [0] 2 = [1] := by decide

example : getIndicesAfterExclusion [1, 3] 5 = [0, 2, 4] := by decide

lemma mem_subsetSums {B : Finset ℕ} {x : ℕ} :
    x ∈ subsetSums B ↔ ∃ S, S ⊆ B ∧ ∑ i ∈ S, 2 ^ i = x := by
  simp [subsetSums, Finset.mem_image, Finset.mem_powerset]

lemma zero_mem_subsetSums (B : Finset ℕ) : 0 ∈ subsetSums B :=
  mem_subsetSums.2 ⟨∅, B.empty_subset, by simp⟩

lemma subsetSums_empty : subsetSums ∅ = {0} := by
  simp [subsetSums]

lemma subsetSums_insert {B : Finset ℕ} {b : ℕ} (hb : b ∉ B) :
    subsetSums (insert b B)
      = subsetSums B ∪ (subsetSums B).image (fun x => x + 2 ^ b) := by
  unfold subsetSums
  rw [Finset.powerset_insert, Finset.image_union]
  simp only [Finset.image_image]
  congr 1
  apply Finset.image_congr
  intro S hS
  rw [Finset.mem_coe, Finset.mem_powerset] at hS
  have hbS : b ∉ S := fun h => hb (hS h)
  simp [Function.comp, Finset.sum_insert hbS, add_comm]

lemma subsetSums_mono {A B : Finset ℕ} (h : A ⊆ B) : subsetSums A ⊆ subsetSums B := by
  intro x hx
  obtain ⟨S, hS, rfl⟩ := mem_subsetSums.1 hx
  exact mem_subsetSums.2 ⟨S, hS.trans h, rfl⟩

lemma union_inter_of_subsets {S T A B : Finset ℕ} (hAB : Disjoint A B)
    (hS : S ⊆ A) (hT : T ⊆ B) : (S ∪ T) ∩ A = S := by
  ext a
  simp only [Finset.mem_inter, Finset.mem_union]
  constructor
  · rintro ⟨hST, ha⟩
    rcases hST with h | h
    · exact h
    · exact absurd (hT h) (Finset.disjoint_left.1 hAB ha)
  · intro h
    exact ⟨Or.inl h, hS h⟩

/-- Under a disjointness assumption on the bit sets, a sum of a subset sum of
`A` and a subset sum of `B` determines both summands (uniqueness of binary
representations). -/
lemma subsetSums_add_inj {A B : Finset ℕ} (hAB : Disjoint A B)
    {e e' y y' : ℕ} (he : e ∈ subsetSums A) (he' : e' ∈ subsetSums A)
    (hy : y ∈ subsetSums B) (hy' : y' ∈ subsetSums B) (h : e + y = e' + y') :
    e = e' ∧ y = y' := by
  obtain ⟨S, hS, rfl⟩ := mem_subsetSums.1 he
  obtain ⟨S', hS', rfl⟩ := mem_subsetSums.1 he'
  obtain ⟨T, hT, rfl⟩ := mem_subsetSums.1 hy
  obtain ⟨T', hT', rfl⟩ := mem_subsetSums.1 hy'
  have hST : Disjoint S T := hAB.mono hS hT
  have hST' : Disjoint S' T' := hAB.mono hS' hT'
  have hsum : ∑ i ∈ S ∪ T, 2 ^ i = ∑ i ∈ S' ∪ T', 2 ^ i := by
    rw [Finset.sum_union hST, Finset.sum_union hST', h]
  have hunion : S ∪ T = S' ∪ T' := Finset.geomSum_injective (le_refl 2) hsum
  have hSeq : S = S' := by
    rw [← union_inter_of_subsets hAB hS hT, ← union_inter_of_subsets hAB hS' hT', hunion]
  have hTeq : T = T' := by
    have e1 : (T ∪ S) ∩ B = T := union_inter_of_subsets hAB.symm hT hS
    have e2 : (T' ∪ S') ∩ B = T' := union_inter_of_subsets hAB.symm hT' hS'
    rw [← e1, ← e2, Finset.union_comm T S, Finset.union_comm T' S', hunion]
  exact ⟨by rw [hSeq], by rw [hTeq]⟩

/-- The subset sums over all bit positions below `n` are exactly `[0, 2^n)`. -/
lemma subsetSums_range (n : ℕ) : subsetSums (Finset.range n) = Finset.range (2 ^ n) := by
  ext m
  rw [mem_subsetSums, Finset.mem_range]
  constructor
  · rintro ⟨S, hS, rfl⟩
    exact Nat.geomSum_lt (le_refl 2) (fun k hk => Finset.mem_range.1 (hS hk))
  · intro hm
    refine ⟨m.bitIndices.toFinset, ?_, Finset.twoPowSum_toFinset_bitIndices m⟩
    intro a ha
    rw [List.mem_toFinset] at ha
    rw [Finset.mem_range]
    have h2 : 2 ^ a ≤ m := Nat.two_pow_le_of_mem_bitIndices ha
    exact (Nat.pow_lt_pow_iff_right (one_lt_two)).1 (lt_of_le_of_lt h2 hm)

/-- The multiplication table of an enumeration of the subset sums of `A` with
an enumeration of the subset sums of `B` enumerates the subset sums of
`A ∪ B`, without duplicates, when `A` and `B` are disjoint. -/
lemma pairwiseSums_nodup_toFinset {A B : Finset ℕ} (hAB : Disjoint A B)
    {l1 l2 : List ℕ} (h1 : l1.Nodup) (e1 : l1.toFinset = subsetSums A)
    (h2 : l2.Nodup) (e2 : l2.toFinset = subsetSums B) :
    (pairwiseSums l1 l2).Nodup ∧ (pairwiseSums l1 l2).toFinset = subsetSums (A ∪ B) := by
  have hmem1 : ∀ x ∈ l1, x ∈ subsetSums A := fun x hx => by
    rw [← e1]; exact List.mem_toFinset.2 hx
  have hmem2 : ∀ y ∈ l2, y ∈ subsetSums B := fun y hy => by
    rw [← e2]; exact List.mem_toFinset.2 hy
  constructor
  · rw [pairwiseSums, List.nodup_flatMap]
    constructor
    · intro e _
      exact h2.map (fun a b hab => by omega)
    · refine List.Pairwise.imp_of_mem ?_ h1
      intro a b ha hb hab
      intro x hxa hxb
      obtain ⟨ya, hya, rfl⟩ := List.mem_map.1 hxa
      obtain ⟨yb, hyb, heq⟩ := List.mem_map.1 hxb
      exact hab (subsetSums_add_inj hAB (hmem1 a ha) (hmem1 b hb)
        (hmem2 ya hya) (hmem2 yb hyb) heq.symm).1
  · ext x
    rw [List.mem_toFinset, pairwiseSums, List.mem_flatMap]
    constructor
    · rintro ⟨e, he, hx⟩
      obtain ⟨y, hy, rfl⟩ := List.mem_map.1 hx
      obtain ⟨S, hS, rfl⟩ := mem_subsetSums.1 (hmem1 e he)
      obtain ⟨T, hT, rfl⟩ := mem_subsetSums.1 (hmem2 y hy)
      refine mem_subsetSums.2 ⟨S ∪ T, Finset.union_subset_union hS hT, ?_⟩
      rw [Finset.sum_union (hAB.mono hS hT)]
    · intro hx
      obtain ⟨R, hR, rfl⟩ := mem_subsetSums.1 hx
      have hRA : R ∩ A ⊆ A := Finset.inter_subset_right
      have hRB : R ∩ B ⊆ B := Finset.inter_subset_right
      have hdisj : Disjoint (R ∩ A) (R ∩ B) := hAB.mono hRA hRB
      have hsplit : (R ∩ A) ∪ (R ∩ B) = R := by
        rw [← Finset.inter_union_distrib_left]
        exact Finset.inter_eq_left.2 hR
      have heA : ∑ i ∈ R ∩ A, 2 ^ i ∈ subsetSums A := mem_subsetSums.2 ⟨R ∩ A, hRA, rfl⟩
      have heB : ∑ i ∈ R ∩ B, 2 ^ i ∈ subsetSums B := mem_subsetSums.2 ⟨R ∩ B, hRB, rfl⟩
      refine ⟨∑ i ∈ R ∩ A, 2 ^ i, List.mem_toFinset.1 (by rw [e1]; exact heA),
        List.mem_map.2 ⟨∑ i ∈ R ∩ B, 2 ^ i, List.mem_toFinset.1 (by rw [e2]; exact heB), ?_⟩⟩
      rw [← Finset.sum_union hdisj, hsplit]

lemma mem_wireBits {ws : List ℕ} {n b : ℕ} :
    b ∈ wireBits ws n ↔ ∃ w ∈ ws, n - 1 - w = b := by
  simp [wireBits]

lemma toFinset_list_map (l : List ℕ) (f : ℕ → ℕ) :
    (l.map f).toFinset = l.toFinset.image f := by
  ext x
  simp [List.mem_map, Finset.mem_image]

lemma generateBitPatterns_length (ws : List ℕ) (n : ℕ) :
    (generateBitPatterns ws n).length = 2 ^ ws.length := by
  induction ws with
  | nil => rfl
  | cons w ws ih =>
    simp only [generateBitPatterns, List.length_append, List.length_map, ih, List.length_cons]
    ring

/-- For a duplicate-free wire list inside `[0, n)`, `generateBitPatterns`
produces, without duplicates, exactly the subset sums of the wire bit set. -/
lemma generateBitPatterns_nodup_toFinset (ws : List ℕ) (n : ℕ)
    (hnd : ws.Nodup) (hlt : ∀ w ∈ ws, w < n) :
    (generateBitPatterns ws n).Nodup ∧
      (generateBitPatterns ws n).toFinset = subsetSums (wireBits ws n) := by
  induction ws with
  | nil =>
    refine ⟨List.nodup_singleton 0, ?_⟩
    simp [generateBitPatterns, wireBits, subsetSums_empty]
  | cons w ws ih =>
    have hwlt : w < n := hlt w (List.mem_cons_self w ws)
    have hnotin : w ∉ ws := (List.nodup_cons.1 hnd).1
    obtain ⟨ihnd, ihset⟩ := ih (List.nodup_cons.1 hnd).2 (fun x hx => hlt x (List.mem_cons_of_mem w hx))
    have hb : (n - 1 - w) ∉ wireBits ws n := by
      rw [mem_wireBits]
      rintro ⟨w', hw', heq⟩
      have hw'lt : w' < n := hlt w' (List.mem_cons_of_mem w hw')
      have : w' = w := by omega
      exact hnotin (this ▸ hw')
    have hmem : ∀ x ∈ generateBitPatterns ws n, x ∈ subsetSums (wireBits ws n) := by
      intro x hx
      rw [← ihset]
      exact List.mem_toFinset.2 hx
    have hval : maxDecimalForQubit w n = 2 ^ (n - 1 - w) := rfl
    constructor
    · show (generateBitPatterns ws n ++
        (generateBitPatterns ws n).map (fun x => x + maxDecimalForQubit w n)).Nodup
      rw [List.nodup_append]
      refine ⟨ihnd, ihnd.map (fun a b hab => by omega), ?_⟩
      intro x hx hx'
      obtain ⟨y, hy, rfl⟩ := List.mem_map.1 hx'
      obtain ⟨S, hS, hSx⟩ := mem_subsetSums.1 (hmem _ hx)
      obtain ⟨T, hT, hTy⟩ := mem_subsetSums.1 (hmem _ hy)
      have hbT : (n - 1 - w) ∉ T := fun h => hb (hT h)
      have hsum : ∑ i ∈ S, 2 ^ i = ∑ i ∈ insert (n - 1 - w) T, 2 ^ i := by
        rw [Finset.sum_insert hbT, hSx, hTy, hval, add_comm]
      have hset : S = insert (n - 1 - w) T := Finset.geomSum_injective (le_refl 2) hsum
      exact hb (hS (hset ▸ Finset.mem_insert_self _ _))
    · show (generateBitPatterns ws n ++
        (generateBitPatterns ws n).map (fun x => x + maxDecimalForQubit w n)).toFinset
        = subsetSums (wireBits (w :: ws) n)
      have hbits : wireBits (w :: ws) n = insert (n - 1 - w) (wireBits ws n) := by
        simp [wireBits]
      rw [hbits, subsetSums_insert hb, List.toFinset_append, toFinset_list_map, ihset, hval]

lemma mem_getIndicesAfterExclusion {W : List ℕ} {n x : ℕ} :
    x ∈ getIndicesAfterExclusion W n ↔ x < n ∧ x ∉ W := by
  simp [getIndicesAfterExclusion, List.mem_filter, List.mem_range]

lemma getIndicesAfterExclusion_nodup (W : List ℕ) (n : ℕ) :
    (getIndicesAfterExclusion W n).Nodup :=
  (List.nodup_range n).filter _

lemma pairwiseSums_length (l1 l2 : List ℕ) :
    (pairwiseSums l1 l2).length = l1.length * l2.length := by
  induction l1 with
  | nil => simp [pairwiseSums]
  | cons e t ih =>
    simp only [pairwiseSums, List.flatMap_cons, List.length_append, List.length_map,
      List.length_cons] at *
    rw [ih]
    ring

lemma wireBits_union_complement (W : List ℕ) (n : ℕ) (hlt : ∀ w ∈ W, w < n) :
    wireBits (getIndicesAfterExclusion W n) n ∪ wireBits W n = Finset.range n := by
  ext b
  simp only [Finset.mem_union, mem_wireBits, Finset.mem_range, mem_getIndicesAfterExclusion]
  constructor
  · rintro (⟨w, ⟨hwn, _⟩, rfl⟩ | ⟨w, hw, rfl⟩)
    · omega
    · have := hlt w hw
      omega
  · intro hb
    by_cases hmem : n - 1 - b ∈ W
    · exact Or.inr ⟨n - 1 - b, hmem, by omega⟩
    · exact Or.inl ⟨n - 1 - b, ⟨by omega, hmem⟩, by omega⟩

lemma wireBits_disjoint_complement (W : List ℕ) (n : ℕ) (hlt : ∀ w ∈ W, w < n) :
    Disjoint (wireBits (getIndicesAfterExclusion W n) n) (wireBits W n) := by
  rw [Finset.disjoint_left]
  intro b hb hb'
  obtain ⟨w', hw', heq'⟩ := mem_wireBits.1 hb
  obtain ⟨w, hw, heq⟩ := mem_wireBits.1 hb'
  obtain ⟨hw'n, hw'notin⟩ := mem_getIndicesAfterExclusion.1 hw'
  have hwn : w < n := hlt w hw
  have : w = w' := by omega
  exact hw'notin (this ▸ hw)

/-- **C1.** For every `n ≥ 1` and duplicate-free wire set `W ⊆ [0, n)`, the
sums `e + i` over all pairs of an external offset
`e ∈ generateBitPatterns (getIndicesAfterExclusion W n) n` and an internal
offset `i ∈ generateBitPatterns W n` are pairwise distinct and cover exactly
the index range `[0, 2^n)`; in particular there are exactly `2^n` such sums. -/
theorem generateBitPatterns_pairwiseSums_cover (W : List ℕ) (n : ℕ)
    (hn : 1 ≤ n) (hnd : W.Nodup) (hlt : ∀ w ∈ W, w < n) :
    (pairwiseSums (generateBitPatterns (getIndicesAfterExclusion W n) n)
        (generateBitPatterns W n)).Nodup ∧
    (pairwiseSums (generateBitPatterns (getIndicesAfterExclusion W n) n)
        (generateBitPatterns W n)).toFinset = Finset.range (2 ^ n) ∧
    (pairwiseSums (generateBitPatterns (getIndicesAfterExclusion W n) n)
        (generateBitPatterns W n)).length = 2 ^ n := by
  have hcompl_lt : ∀ w ∈ getIndicesAfterExclusion W n, w < n := fun w hw =>
    (mem_getIndicesAfterExclusion.1 hw).1
  obtain ⟨hnd1, hset1⟩ := generateBitPatterns_nodup_toFinset
    (getIndicesAfterExclusion W n) n (getIndicesAfterExclusion_nodup W n) hcompl_lt
  obtain ⟨hnd2, hset2⟩ := generateBitPatterns_nodup_toFinset W n hnd hlt
  obtain ⟨hpn, hpt⟩ := pairwiseSums_nodup_toFinset
    (wireBits_disjoint_complement W n hlt) hnd1 hset1 hnd2 hset2
  rw [wireBits_union_complement W n hlt, subsetSums_range] at hpt
  refine ⟨hpn, hpt, ?_⟩
  rw [← List.toFinset_card_of_nodup hpn, hpt, Finset.card_range]

/-- Witness for C1: the theorem instantiated at `W = [0]`, `n = 2`. -/
theorem generateBitPatterns_pairwiseSums_cover_witness :
    (1 ≤ 2 ∧ List.Nodup [0] ∧ ∀ w ∈ [0], w < 2) ∧
    ((pairwiseSums (generateBitPatterns (getIndicesAfterExclusion [0] 2) 2)
        (generateBitPatterns [0] 2)).Nodup ∧
    (pairwiseSums (generateBitPatterns (getIndicesAfterExclusion [0] 2) 2)
        (generateBitPatterns [0] 2)).toFinset = Finset.range (2 ^ 2) ∧
    (pairwiseSums (generateBitPatterns (getIndicesAfterExclusion [0] 2) 2)
        (generateBitPatterns [0] 2)).length = 2 ^ 2) :=
  ⟨⟨by decide, by decide, by decide⟩,
    generateBitPatterns_pairwiseSums_cover [0] 2 (by decide) (by decide) (by decide)⟩

lemma generateBitPatterns_eq_foldr (wires : List ℕ) (n : ℕ) :
    generateBitPatterns wires n
      = wires.foldr
          (fun w seq => seq ++ seq.map (fun x => x + 2 ^ (n - 1 - w))) [0] := by
  induction wires with
  | nil => rfl
  | cons w ws ih =>
    simp only [generateBitPatterns, List.foldr_cons, ih]
    rfl

/-- **C2.** For every `n ≥ 1` and duplicate-free wire list inside `[0, n)`,
`generateBitPatterns` returns exactly the sequence of the spec's doubling
procedure; the output is a deterministic function of its inputs, has length
`2^|wires|`, and contains no duplicate values. -/
theorem generateBitPatterns_doubling (wires : List ℕ) (n : ℕ)
    (hn : 1 ≤ n) (hnd : wires.Nodup) (hlt : ∀ w ∈ wires, w < n) :
    generateBitPatterns wires n = doublingProcedure wires n ∧
    (generateBitPatterns wires n).length = 2 ^ wires.length ∧
    (generateBitPatterns wires n).Nodup := by
  refine ⟨?_, generateBitPatterns_length wires n,
    (generateBitPatterns_nodup_toFinset wires n hnd hlt).1⟩
  rw [doublingProcedure, List.foldl_reverse, generateBitPatterns_eq_foldr]

/-- Witness for C2: the theorem instantiated at `wires = [1, 0]`, `n = 2`. -/
theorem generateBitPatterns_doubling_witness :
    (1 ≤ 2 ∧ List.Nodup [1, 0] ∧ ∀ w ∈ [1, 0], w < 2) ∧
    (generateBitPatterns [1, 0] 2 = doublingProcedure [1, 0] 2 ∧
    (generateBitPatterns [1, 0] 2).length = 2 ^ [1, 0].length ∧
    (generateBitPatterns [1, 0] 2).Nodup) :=
  ⟨⟨by decide, by decide, by decide⟩,
    generateBitPatterns_doubling [1, 0] 2 (by decide) (by decide) (by decide)⟩

lemma blockMatrix_getD (L p q : ℕ) (m00 m01 m10 m11 : ℂ) {i j : ℕ}
    (hi : i < L) (hj : j < L) :
    (blockMatrix L p q m00 m01 m10 m11).getD (i * L + j) 0
      = (if i = p ∧ j = p then m00
        else if i = p ∧ j = q then m01
        else if i = q ∧ j = p then m10
        else if i = q ∧ j = q then m11
        else if i = j then 1 else 0) := by
  have hlt : i * L + j < L * L := by
    calc i * L + j < i * L + L := by omega
    _ = (i + 1) * L := by ring
    _ ≤ L * L := Nat.mul_le_mul_right L hi
  have hidx : (List.range (L * L)).get? (i * L + j) = some (i * L + j) :=
    List.get?_range hlt
  have hdiv : (i * L + j) / L = i := by
    rw [add_comm, Nat.add_mul_div_right _ _ (by omega : 0 < L), Nat.div_eq_of_lt hj]
    omega
  have hmod : (i * L + j) % L = j := by
    rw [add_comm, Nat.add_mul_mod_self_right, Nat.mod_eq_of_lt hj]
  show ((blockMatrix L p q m00 m01 m10 m11).get? (i * L + j)).getD 0 = _
  rw [blockMatrix, List.get?_map, hidx]
  simp [hdiv, hmod]

lemma toFinset_range_eq (L : ℕ) : (List.range L).toFinset = Finset.range L := by
  ext x
  simp

lemma list_range_sum_eq_finset (L : ℕ) (g : ℕ → ℂ) :
    ((List.range L).map g).sum = ∑ j ∈ Finset.range L, g j := by
  rw [← toFinset_range_eq, List.sum_toFinset _ (List.nodup_range L)]

/-- Evaluation of a row of `blockMatrix` against a vector. -/
lemma blockMatrix_row_sum (L p q i : ℕ) (hpq : p < q) (hq : q < L) (hi : i < L)
    (m00 m01 m10 m11 : ℂ) (f : ℕ → ℂ) :
    ((List.range L).map
        (fun j => (blockMatrix L p q m00 m01 m10 m11).getD (i * L + j) 0 * f j)).sum
      = if i = p then m00 * f p + m01 * f q
        else if i = q then m10 * f p + m11 * f q
        else f i := by
  have hp : p < L := hpq.trans hq
  rw [list_range_sum_eq_finset]
  by_cases hip : i = p
  · subst hip
    have hstep : ∀ j ∈ Finset.range L,
        (blockMatrix L i q m00 m01 m10 m11).getD (i * L + j) 0 * f j
          = (if j = i then m00 * f i else 0) + (if j = q then m01 * f q else 0) := by
      intro j hj
      rw [blockMatrix_getD _ _ _ _ _ _ _ hi (Finset.mem_range.1 hj)]
      by_cases hji : j = i
      · subst hji
        simp [Nat.ne_of_lt hpq]
      · by_cases hjq : j = q
        · subst hjq
          simp [hji, Nat.ne_of_lt hpq]
        · simp [hji, hjq, Ne.symm hji]
    rw [Finset.sum_congr rfl hstep, Finset.sum_add_distrib,
      Finset.sum_ite_eq' (Finset.range L) i, Finset.sum_ite_eq' (Finset.range L) q]
    simp [Finset.mem_range.2 hi, Finset.mem_range.2 hq, Nat.ne_of_lt hpq]
  · by_cases hiq : i = q
    · subst hiq
      have hstep : ∀ j ∈ Finset.range L,
          (blockMatrix L p i m00 m01 m10 m11).getD (i * L + j) 0 * f j
            = (if j = p then m10 * f p else 0) + (if j = i then m11 * f i else 0) := by
        intro j hj
        rw [blockMatrix_getD _ _ _ _ _ _ _ hi (Finset.mem_range.1 hj)]
        by_cases hjp : j = p
        · subst hjp
          simp [hip, Ne.symm hip]
        · by_cases hji : j = i
          · subst hji
            simp [hip, hjp]
          · simp [hjp, hji, Ne.symm hji]
      rw [Finset.sum_congr rfl hstep, Finset.sum_add_distrib,
        Finset.sum_ite_eq' (Finset.range L) p, Finset.sum_ite_eq' (Finset.range L) i]
      simp [Finset.mem_range.2 hi, Finset.mem_range.2 hp, hip]
    · have hstep : ∀ j ∈ Finset.range L,
          (blockMatrix L p q m00 m01 m10 m11).getD (i * L + j) 0 * f j
            = (if j = i then f i else 0) := by
        intro j hj
        rw [blockMatrix_getD _ _ _ _ _ _ _ hi (Finset.mem_range.1 hj)]
        by_cases hji : j = i
        · subst hji
          simp [hip, hiq]
        · rcases Decidable.em (j = p) with hjp | hjp
          · subst hjp
            simp [hip, hiq, hji, Ne.symm hji]
          · rcases Decidable.em (j = q) with hjq | hjq
            · subst hjq
              simp [hip, hiq, hji, hjp]
            · simp [hip, hiq, hji, hjp, hjq, Ne.symm hji]
      rw [Finset.sum_congr rfl hstep, Finset.sum_ite_eq' (Finset.range L) i]
      simp [Finset.mem_range.2 hi, hip, hiq]

/-- Evaluating a left fold of pointwise writes at pairwise-distinct addresses:
an address that is never written keeps its original value. -/
lemma foldl_update_range_miss (L : ℕ) (key : ℕ → ℕ) (val : ℕ → ℂ) (st : QState)
    (x : ℕ) (hx : ∀ i < L, key i ≠ x) :
    ((List.range L).foldl (fun s i => Function.update s (key i) (val i)) st) x = st x := by
  induction L generalizing st with
  | zero => rfl
  | succ L ih =>
    rw [List.range_succ, List.foldl_append]
    simp only [List.foldl_cons, List.foldl_nil]
    rw [Function.update_noteq (Ne.symm (hx L (Nat.lt_succ_self L)))]
    exact ih st (fun i hi => hx i (hi.trans (Nat.lt_succ_self L)))

/-- Evaluating a left fold of pointwise writes at pairwise-distinct addresses:
the written address `key i` ends up holding `val i`. -/
lemma foldl_update_range_hit (L : ℕ) (key : ℕ → ℕ) (val : ℕ → ℂ) (st : QState)
    (hinj : ∀ i < L, ∀ j < L, key i = key j → i = j)
    (i : ℕ) (hi : i < L) :
    ((List.range L).foldl (fun s i => Function.update s (key i) (val i)) st) (key i)
      = val i := by
  induction L generalizing st with
  | zero => omega
  | succ L ih =>
    rw [List.range_succ, List.foldl_append]
    simp only [List.foldl_cons, List.foldl_nil]
    by_cases hiL : i = L
    · subst hiL
      rw [Function.update_same]
    · have hilt : i < L := by omega
      have hne : key L ≠ key i := fun h =>
        hiL (hinj i (by omega) L (Nat.lt_succ_self L) h.symm)
      rw [Function.update_noteq (Ne.symm hne)]
      have hinj' : ∀ a, a < L → ∀ b, b < L → key a = key b → a = b := fun a ha b hb hab =>
        hinj a (by omega) b (by omega) hab
      exact ih st hinj' hilt

lemma gatherV_getD (st : QState) (e : ℕ) (indices : List ℕ) {j : ℕ}
    (hj : j < indices.length) :
    (indices.map (fun index => st (e + index))).getD j 0 = st (e + indices.getD j 0) := by
  have h1 : indices.get? j = some (indices.get ⟨j, hj⟩) := List.get?_eq_get hj
  show ((indices.map (fun index => st (e + index))).get? j).getD 0
    = st (e + (indices.get? j).getD 0)
  rw [List.get?_map, h1]
  rfl

/-- The generic kernel applied (for one external offset) to a matrix of
`blockMatrix` shape acts as the simultaneous 2×2 transform on the two block
addresses and leaves every other amplitude unchanged. -/
lemma applyMatrixBlock_blockMatrix (L p q : ℕ) (hpq : p < q) (hq : q < L)
    (m00 m01 m10 m11 : ℂ) (indices : List ℕ) (hlen : indices.length = L)
    (hnd : indices.Nodup) (e : ℕ) (st : QState) :
    applyMatrixBlock (blockMatrix L p q m00 m01 m10 m11) indices e st
      = twoPointUpdate (e + indices.getD p 0) (e + indices.getD q 0) m00 m01 m10 m11 st := by
  subst hlen
  have hp : p < indices.length := hpq.trans hq
  have hinj : ∀ i < indices.length, ∀ j < indices.length,
      e + indices.getD i 0 = e + indices.getD j 0 → i = j := by
    intro i hi j hj hij
    have e1 : indices.getD i 0 = indices.get ⟨i, hi⟩ := List.getD_eq_get indices 0 hi
    have e2 : indices.getD j 0 = indices.get ⟨j, hj⟩ := List.getD_eq_get indices 0 hj
    have h3 : indices.get ⟨i, hi⟩ = indices.get ⟨j, hj⟩ := by
      rw [← e1, ← e2]
      omega
    exact congrArg Fin.val ((List.Nodup.get_inj_iff hnd).1 h3)
  have hrow : ∀ i, i < indices.length →
      ((List.range indices.length).map
        (fun j => (blockMatrix indices.length p q m00 m01 m10 m11).getD
            (i * indices.length + j) 0 *
          (indices.map (fun index => st (e + index))).getD j 0)).sum
      = if i = p then m00 * st (e + indices.getD p 0) + m01 * st (e + indices.getD q 0)
        else if i = q then m10 * st (e + indices.getD p 0) + m11 * st (e + indices.getD q 0)
        else st (e + indices.getD i 0) := by
    intro i hi
    have hcongr : ((List.range indices.length).map
        (fun j => (blockMatrix indices.length p q m00 m01 m10 m11).getD
            (i * indices.length + j) 0 *
          (indices.map (fun index => st (e + index))).getD j 0)).sum
        = ((List.range indices.length).map
        (fun j => (blockMatrix indices.length p q m00 m01 m10 m11).getD
            (i * indices.length + j) 0 * st (e + indices.getD j 0))).sum := by
      congr 1
      apply List.map_congr_left
      intro j hj
      rw [gatherV_getD st e indices (List.mem_range.1 hj)]
    rw [hcongr, blockMatrix_row_sum indices.length p q i hpq hq hi m00 m01 m10 m11
      (fun j => st (e + indices.getD j 0))]
  have haddr : e + indices.getD p 0 ≠ e + indices.getD q 0 := by
    intro h
    exact absurd (hinj p hp q hq h) (Nat.ne_of_lt hpq)
  funext x
  by_cases hxq : x = e + indices.getD q 0
  · subst hxq
    have h1 : applyMatrixBlock (blockMatrix indices.length p q m00 m01 m10 m11) indices e st
          (e + indices.getD q 0)
        = m10 * st (e + indices.getD p 0) + m11 * st (e + indices.getD q 0) := by
      exact Eq.trans (foldl_update_range_hit indices.length
        (fun i => e + indices.getD i 0)
        (fun i => ((List.range indices.length).map
          (fun j => (blockMatrix indices.length p q m00 m01 m10 m11).getD
              (i * indices.length + j) 0 *
            (indices.map (fun index => st (e + index))).getD j 0)).sum)
        st hinj q hq)
        ((hrow q hq).trans (by
          rw [if_neg (fun h : q = p => absurd h.symm (Nat.ne_of_lt hpq)), if_pos rfl]))
    rw [h1, twoPointUpdate, Function.update_same]
  · by_cases hxp : x = e + indices.getD p 0
    · subst hxp
      have h1 : applyMatrixBlock (blockMatrix indices.length p q m00 m01 m10 m11) indices e st
            (e + indices.getD p 0)
          = m00 * st (e + indices.getD p 0) + m01 * st (e + indices.getD q 0) := by
        exact Eq.trans (foldl_update_range_hit indices.length
          (fun i => e + indices.getD i 0)
          (fun i => ((List.range indices.length).map
            (fun j => (blockMatrix indices.length p q m00 m01 m10 m11).getD
                (i * indices.length + j) 0 *
              (indices.map (fun index => st (e + index))).getD j 0)).sum)
          st hinj p hp)
          ((hrow p hp).trans (by rw [if_pos rfl]))
      rw [h1, twoPointUpdate, Function.update_noteq haddr, Function.update_same]
    · rw [twoPointUpdate, Function.update_noteq hxq, Function.update_noteq hxp]
      by_cases hxk : ∃ i, i < indices.length ∧ e + indices.getD i 0 = x
      · obtain ⟨i, hi, hkey⟩ := hxk
        have hip : i ≠ p := fun h => hxp (h ▸ hkey).symm
        have hiq : i ≠ q := fun h => hxq (h ▸ hkey).symm
        subst hkey
        have h1 : applyMatrixBlock (blockMatrix indices.length p q m00 m01 m10 m11) indices e st
              (e + indices.getD i 0)
            = st (e + indices.getD i 0) := by
          exact Eq.trans (foldl_update_range_hit indices.length
            (fun i => e + indices.getD i 0)
            (fun i => ((List.range indices.length).map
              (fun j => (blockMatrix indices.length p q m00 m01 m10 m11).getD
                  (i * indices.length + j) 0 *
                (indices.map (fun index => st (e + index))).getD j 0)).sum)
            st hinj i hi)
            ((hrow i hi).trans (by rw [if_neg hip, if_neg hiq]))
        rw [h1]
      · push_neg at hxk
        exact foldl_update_range_miss indices.length
          (fun i => e + indices.getD i 0)
          (fun i => ((List.range indices.length).map
            (fun j => (blockMatrix indices.length p q m00 m01 m10 m11).getD
                (i * indices.length + j) 0 *
              (indices.map (fun index => st (e + index))).getD j 0)).sum)
          st x (fun i hi => hxk i hi)

lemma twoPoint_congr (a b : ℕ) (st : QState) (va vb m00 m01 m10 m11 : ℂ)
    (hva : va = m00 * st a + m01 * st b) (hvb : vb = m10 * st a + m11 * st b) :
    Function.update (Function.update st a va) b vb
      = twoPointUpdate a b m00 m01 m10 m11 st := by
  rw [twoPointUpdate, hva, hvb]

lemma swapAmps_eq (a b : ℕ) (st : QState) :
    swapAmps a b st = twoPointUpdate a b 0 1 1 0 st :=
  twoPoint_congr a b st (st b) (st a) 0 1 1 0 (by ring) (by ring)

lemma oneMul_eq (a b : ℕ) (hab : a ≠ b) (k : ℂ) (st : QState) :
    Function.update st b (st b * k) = twoPointUpdate a b 1 0 0 k st := by
  rw [twoPointUpdate]
  have h1 : (1 : ℂ) * st a + 0 * st b = st a := by ring
  have h2 : (0 : ℂ) * st a + k * st b = st b * k := by ring
  rw [h1, h2, Function.update_eq_self]

lemma seqMul_eq (a b : ℕ) (hab : a ≠ b) (k1 k2 : ℂ) (st : QState) :
    Function.update (Function.update st a (st a * k1)) b
      ((Function.update st a (st a * k1)) b * k2)
      = twoPointUpdate a b k1 0 0 k2 st := by
  rw [Function.update_noteq (Ne.symm hab)]
  exact twoPoint_congr a b st (st a * k1) (st b * k2) k1 0 0 k2 (by ring) (by ring)

lemma getD_addr_ne (indices : List ℕ) (hnd : indices.Nodup) (e p q : ℕ)
    (hp : p < indices.length) (hq : q < indices.length) (hpq : p ≠ q) :
    e + indices.getD p 0 ≠ e + indices.getD q 0 := by
  intro h
  have e1 : indices.getD p 0 = indices.get ⟨p, hp⟩ := List.getD_eq_get indices 0 hp
  have e2 : indices.getD q 0 = indices.get ⟨q, hq⟩ := List.getD_eq_get indices 0 hq
  have h3 : indices.get ⟨p, hp⟩ = indices.get ⟨q, hq⟩ := by
    rw [← e1, ← e2]
    omega
  exact hpq (congrArg Fin.val ((List.Nodup.get_inj_iff hnd).1 h3))

lemma foldl_congr_fun (l : List ℕ) (f g : QState → ℕ → QState) (st : QState)
    (h : ∀ s e, f s e = g s e) : l.foldl f st = l.foldl g st := by
  induction l generalizing st with
  | nil => rfl
  | cons e t ih =>
    simp only [List.foldl_cons, h]
    exact ih _

/-- A specialised kernel whose per-external-offset body acts as a two-point
transform at block positions `(p, q)` coincides with the generic kernel run on
the corresponding `blockMatrix`. -/
lemma specialised_block_case (L p q : ℕ) (hpq : p < q) (hq : q < L)
    (m00 m01 m10 m11 : ℂ) (indices ext : List ℕ) (hlen : indices.length = L)
    (hnd : indices.Nodup) (st : QState) (body : QState → ℕ → QState)
    (hbody : ∀ s e, body s e
      = twoPointUpdate (e + indices.getD p 0) (e + indices.getD q 0) m00 m01 m10 m11 s) :
    ext.foldl body st
      = applyKernelGeneric (blockMatrix L p q m00 m01 m10 m11) indices ext st := by
  rw [applyKernelGeneric]
  apply foldl_congr_fun
  intro s e
  rw [hbody s e,
    applyMatrixBlock_blockMatrix L p q hpq hq m00 m01 m10 m11 indices hlen hnd e s]

lemma xMatrix_eq : xMatrix = blockMatrix 2 0 1 0 1 1 0 := rfl

lemma yMatrix_eq : yMatrix = blockMatrix 2 0 1 0 (-IMAG) IMAG 0 := rfl

lemma zMatrix_eq : zMatrix = blockMatrix 2 0 1 1 0 0 (-1) := rfl

lemma hMatrix_eq : hMatrix = blockMatrix 2 0 1 SQRT2INV SQRT2INV SQRT2INV (-SQRT2INV) := rfl

lemma sMatrix_eq : sMatrix = blockMatrix 2 0 1 1 0 0 IMAG := rfl

lemma tMatrix_eq : tMatrix = blockMatrix 2 0 1 1 0 0 tGateShift := rfl

lemma rzMatrix_eq (θ : ℝ) :
    rzMatrix θ = blockMatrix 2 0 1 (rzFirst θ) 0 0 (rzSecond θ) := rfl

lemma phaseShiftMatrix_eq (θ : ℝ) :
    phaseShiftMatrix θ = blockMatrix 2 0 1 1 0 0 (phaseShiftFactor θ) := rfl

lemma cnotMatrix_eq : cnotMatrix = blockMatrix 4 2 3 0 1 1 0 := rfl

lemma swapMatrix_eq : swapMatrix = blockMatrix 4 1 2 0 1 1 0 := rfl

lemma czMatrix_eq : czMatrix = blockMatrix 4 2 3 1 0 0 (-1) := rfl

lemma crxMatrix_eq (θ : ℝ) :
    crxMatrix θ = blockMatrix 4 2 3 (rxC θ) (rxJs θ) (rxJs θ) (rxC θ) := rfl

lemma cryMatrix_eq (θ : ℝ) :
    cryMatrix θ = blockMatrix 4 2 3 (ryC θ) (-ryS θ) (ryS θ) (ryC θ) := rfl

lemma crzMatrix_eq (θ : ℝ) :
    crzMatrix θ = blockMatrix 4 2 3 (rzFirst θ) 0 0 (rzSecond θ) := rfl

lemma crotMatrix_eq (phi θ ω : ℝ) :
    crotMatrix phi θ ω
      = blockMatrix 4 2 3 (rotR1 phi θ ω) (rotR2 phi θ ω) (rotR3 phi θ ω) (rotR4 phi θ ω) := rfl

lemma toffoliMatrix_eq : toffoliMatrix = blockMatrix 8 6 7 0 1 1 0 := rfl

lemma cswapMatrix_eq : cswapMatrix = blockMatrix 8 5 6 0 1 1 0 := rfl

/-- **C3.** Every gate of `Gates.cpp` that provides both a matrix and a
specialised `applyKernel` (X, Y, Z, H, S, T, RZ, PhaseShift, CNOT, SWAP, CZ,
CRX, CRY, CRZ, CRot, Toffoli, CSWAP) produces, on every state and on the
internal/external index sets generated for its wires, exactly the state
produced by the generic gather–multiply–scatter kernel
`AbstractGate::applyKernel` run on the gate's matrix. -/
theorem specialisedKernel_eq_genericKernel (g : SpecialisedGate)
    (wires : List ℕ) (n : ℕ) (hnd : wires.Nodup) (hlt : ∀ w ∈ wires, w < n)
    (har : wires.length = numQubitsOf g) (st : QState) :
    kernelOf g (generateBitPatterns wires n)
        (generateBitPatterns (getIndicesAfterExclusion wires n) n) st
      = applyKernelGeneric (matrixOf g) (generateBitPatterns wires n)
          (generateBitPatterns (getIndicesAfterExclusion wires n) n) st := by
  have hndI : (generateBitPatterns wires n).Nodup :=
    (generateBitPatterns_nodup_toFinset wires n hnd hlt).1
  have hlenI : (generateBitPatterns wires n).length = 2 ^ wires.length :=
    generateBitPatterns_length wires n
  cases g with
  | X =>
    have hlen2 : (generateBitPatterns wires n).length = 2 := by rw [hlenI, har]; rfl
    exact specialised_block_case 2 0 1 (by omega) (by omega) 0 1 1 0 _ _ hlen2 hndI st _
      (fun s e => swapAmps_eq _ _ s)
  | Y =>
    have hlen2 : (generateBitPatterns wires n).length = 2 := by rw [hlenI, har]; rfl
    exact specialised_block_case 2 0 1 (by omega) (by omega) 0 (-IMAG) IMAG 0 _ _ hlen2 hndI st _
      (fun s e => twoPoint_congr _ _ s _ _ 0 (-IMAG) IMAG 0 (by ring) (by ring))
  | Z =>
    have hlen2 : (generateBitPatterns wires n).length = 2 := by rw [hlenI, har]; rfl
    exact specialised_block_case 2 0 1 (by omega) (by omega) 1 0 0 (-1) _ _ hlen2 hndI st _
      (fun s e => oneMul_eq _ _
        (getD_addr_ne _ hndI e 0 1 (by omega) (by omega) (by omega)) (-1) s)
  | H =>
    have hlen2 : (generateBitPatterns wires n).length = 2 := by rw [hlenI, har]; rfl
    exact specialised_block_case 2 0 1 (by omega) (by omega)
      SQRT2INV SQRT2INV SQRT2INV (-SQRT2INV) _ _ hlen2 hndI st _
      (fun s e => twoPoint_congr _ _ s _ _
        SQRT2INV SQRT2INV SQRT2INV (-SQRT2INV) (by ring) (by ring))
  | S =>
    have hlen2 : (generateBitPatterns wires n).length = 2 := by rw [hlenI, har]; rfl
    exact specialised_block_case 2 0 1 (by omega) (by omega) 1 0 0 IMAG _ _ hlen2 hndI st _
      (fun s e => oneMul_eq _ _
        (getD_addr_ne _ hndI e 0 1 (by omega) (by omega) (by omega)) IMAG s)
  | T =>
    have hlen2 : (generateBitPatterns wires n).length = 2 := by rw [hlenI, har]; rfl
    exact specialised_block_case 2 0 1 (by omega) (by omega) 1 0 0 tGateShift _ _ hlen2 hndI st _
      (fun s e => oneMul_eq _ _
        (getD_addr_ne _ hndI e 0 1 (by omega) (by omega) (by omega)) tGateShift s)
  | RZ θ =>
    have hlen2 : (generateBitPatterns wires n).length = 2 := by rw [hlenI, har]; rfl
    exact specialised_block_case 2 0 1 (by omega) (by omega)
      (rzFirst θ) 0 0 (rzSecond θ) _ _ hlen2 hndI st _
      (fun s e => seqMul_eq _ _
        (getD_addr_ne _ hndI e 0 1 (by omega) (by omega) (by omega)) (rzFirst θ) (rzSecond θ) s)
  | PhaseShift θ =>
    have hlen2 : (generateBitPatterns wires n).length = 2 := by rw [hlenI, har]; rfl
    exact specialised_block_case 2 0 1 (by omega) (by omega)
      1 0 0 (phaseShiftFactor θ) _ _ hlen2 hndI st _
      (fun s e => oneMul_eq _ _
        (getD_addr_ne _ hndI e 0 1 (by omega) (by omega) (by omega)) (phaseShiftFactor θ) s)
  | CNOT =>
    have hlen2 : (generateBitPatterns wires n).length = 4 := by rw [hlenI, har]; rfl
    exact specialised_block_case 4 2 3 (by omega) (by omega) 0 1 1 0 _ _ hlen2 hndI st _
      (fun s e => swapAmps_eq _ _ s)
  | SWAP =>
    have hlen2 : (generateBitPatterns wires n).length = 4 := by rw [hlenI, har]; rfl
    exact specialised_block_case 4 1 2 (by omega) (by omega) 0 1 1 0 _ _ hlen2 hndI st _
      (fun s e => swapAmps_eq _ _ s)
  | CZ =>
    have hlen2 : (generateBitPatterns wires n).length = 4 := by rw [hlenI, har]; rfl
    exact specialised_block_case 4 2 3 (by omega) (by omega) 1 0 0 (-1) _ _ hlen2 hndI st _
      (fun s e => oneMul_eq _ _
        (getD_addr_ne _ hndI e 2 3 (by omega) (by omega) (by omega)) (-1) s)
  | CRX θ =>
    have hlen2 : (generateBitPatterns wires n).length = 4 := by rw [hlenI, har]; rfl
    exact specialised_block_case 4 2 3 (by omega) (by omega)
      (rxC θ) (rxJs θ) (rxJs θ) (rxC θ) _ _ hlen2 hndI st _
      (fun s e => twoPoint_congr _ _ s _ _
        (rxC θ) (rxJs θ) (rxJs θ) (rxC θ) (by ring) (by ring))
  | CRY θ =>
    have hlen2 : (generateBitPatterns wires n).length = 4 := by rw [hlenI, har]; rfl
    exact specialised_block_case 4 2 3 (by omega) (by omega)
      (ryC θ) (-ryS θ) (ryS θ) (ryC θ) _ _ hlen2 hndI st _
      (fun s e => twoPoint_congr _ _ s _ _
        (ryC θ) (-ryS θ) (ryS θ) (ryC θ) (by ring) (by ring))
  | CRZ θ =>
    have hlen2 : (generateBitPatterns wires n).length = 4 := by rw [hlenI, har]; rfl
    exact specialised_block_case 4 2 3 (by omega) (by omega)
      (rzFirst θ) 0 0 (rzSecond θ) _ _ hlen2 hndI st _
      (fun s e => seqMul_eq _ _
        (getD_addr_ne _ hndI e 2 3 (by omega) (by omega) (by omega)) (rzFirst θ) (rzSecond θ) s)
  | CRot phi θ ω =>
    have hlen2 : (generateBitPatterns wires n).length = 4 := by rw [hlenI, har]; rfl
    exact specialised_block_case 4 2 3 (by omega) (by omega)
      (rotR1 phi θ ω) (rotR2 phi θ ω) (rotR3 phi θ ω) (rotR4 phi θ ω) _ _ hlen2 hndI st _
      (fun s e => twoPoint_congr _ _ s _ _
        (rotR1 phi θ ω) (rotR2 phi θ ω) (rotR3 phi θ ω) (rotR4 phi θ ω) (by ring) (by ring))
  | Toffoli =>
    have hlen2 : (generateBitPatterns wires n).length = 8 := by rw [hlenI, har]; rfl
    exact specialised_block_case 8 6 7 (by omega) (by omega) 0 1 1 0 _ _ hlen2 hndI st _
      (fun s e => swapAmps_eq _ _ s)
  | CSWAP =>
    have hlen2 : (generateBitPatterns wires n).length = 8 := by rw [hlenI, har]; rfl
    exact specialised_block_case 8 5 6 (by omega) (by omega) 0 1 1 0 _ _ hlen2 hndI st _
      (fun s e => swapAmps_eq _ _ s)

/-- Witness for C3: the theorem instantiated at the CNOT gate on wires
`[0, 1]` of a 2-qubit register and a concrete state. -/
theorem specialisedKernel_eq_genericKernel_witness :
    (List.Nodup [0, 1] ∧ (∀ w ∈ [0, 1], w < 2) ∧ [0, 1].length = numQubitsOf .CNOT) ∧
    kernelOf .CNOT (generateBitPatterns [0, 1] 2)
        (generateBitPatterns (getIndicesAfterExclusion [0, 1] 2) 2) (fun k => (k : ℂ))
      = applyKernelGeneric (matrixOf .CNOT) (generateBitPatterns [0, 1] 2)
          (generateBitPatterns (getIndicesAfterExclusion [0, 1] 2) 2) (fun k => (k : ℂ)) :=
  ⟨⟨by decide, by decide, by decide⟩,
    specialisedKernel_eq_genericKernel .CNOT [0, 1] 2 (by decide) (by decide) (by decide)
      (fun k => (k : ℂ))⟩

/-- **C7 (amended).** `apply` raises `DimensionMismatch`, leaving the state
untouched, when the qubit count is zero or the state length differs from
`2^n`; when those checks pass it raises `ShapeMismatch`, before any mutation,
whenever `ops`, `wires`, `params` do not all have equal length.  (The
length of `inverse` is not validated by the code.) -/
theorem apply_validation (state : StateVector) (ops : List String)
    (wires : List (List ℕ)) (params : List (List ℝ)) (inverse : List Bool)
    (qubits : ℕ) :
    ((qubits = 0 ∨ state.length ≠ 2 ^ qubits) →
      apply state ops wires params inverse qubits = (state, some Err.DimensionMismatch)) ∧
    (1 ≤ qubits → state.length = 2 ^ qubits →
      (ops.length ≠ wires.length ∨ ops.length ≠ params.length) →
      apply state ops wires params inverse qubits = (state, some Err.ShapeMismatch)) := by
  constructor
  · intro h
    rw [apply]
    by_cases hq : qubits ≤ 0
    · rw [if_pos hq]
    · have hlen : state.length ≠ 2 ^ qubits := by
        rcases h with h | h
        · omega
        · exact h
      rw [if_neg hq, if_pos (by simpa [exp2] using hlen)]
  · intro h1 h2 h3
    rw [apply, if_neg (by omega), if_neg (by simp [exp2, h2]), if_pos h3]

/-- Witness for C7 (amended): `DimensionMismatch` at `n = 0`, and
`ShapeMismatch` when `ops` and `wires` differ in length. -/
theorem apply_validation_witness :
    apply ⟨fun _ => 0, 2⟩ [] [] [] [] 0 = (⟨fun _ => 0, 2⟩, some Err.DimensionMismatch) ∧
    apply ⟨fun _ => 0, 2⟩ ["PauliX"] [] [] [] 1
      = (⟨fun _ => 0, 2⟩, some Err.ShapeMismatch) :=
  ⟨(apply_validation ⟨fun _ => 0, 2⟩ [] [] [] [] 0).1 (Or.inl rfl),
   (apply_validation ⟨fun _ => 0, 2⟩ ["PauliX"] [] [] [] 1).2 (by decide) rfl
     (by decide)⟩

/-- Counterexample for C7 as stated: with `ops = wires = params = []` but
`inverse = [true]` the four parallel arrays do **not** all have equal length,
yet `apply` returns without any error — the length of `inverse` is never
validated (`Apply.cpp` 106–108 compare only `ops`, `wires`, `params`). -/
theorem apply_inverse_length_unchecked :
    ([] : List String).length ≠ ([true] : List Bool).length ∧
    apply ⟨fun _ => 0, 2⟩ [] [] [] [true] 1 = (⟨fun _ => 0, 2⟩, none) :=
  ⟨by decide, rfl⟩

/-- **C8.** `constructGate` recognises exactly the 21 labels of the dispatch
table (case-sensitively): an unregistered label fails with `UnknownGate` for
every parameter list, and every registered label succeeds on a well-formed
parameter list. -/
theorem constructGate_catalogue :
    (∀ label params, label ∉ dispatchTable.map Prod.fst →
      constructGate label params = .error .UnknownGate) ∧
    (∀ label ∈ dispatchTable.map Prod.fst,
      ∃ params g, constructGate label params = .ok g) := by
  constructor
  · intro label params hmem
    rw [constructGate]
    have hfind : dispatchTable.find? (fun entry => entry.1 == label) = none := by
      rw [List.find?_eq_none]
      intro x hx hbeq
      exact hmem (List.mem_map.2 ⟨x, hx, by simpa using hbeq⟩)
    rw [hfind]
  · intro label hmem
    simp only [dispatchTable, List.map_cons, List.map_nil, List.mem_cons,
      List.not_mem_nil, or_false] at hmem
    rcases hmem with rfl | rfl | rfl | rfl | rfl | rfl | rfl | rfl | rfl | rfl | rfl |
      rfl | rfl | rfl | rfl | rfl | rfl | rfl | rfl | rfl | rfl
    all_goals first
      | exact ⟨[], _, rfl⟩
      | exact ⟨[0], _, rfl⟩
      | exact ⟨[0, 0, 0], _, rfl⟩

/-- Witness for C8: the unregistered label `"Frobnicate"` fails with
`UnknownGate`; the registered label `"PauliX"` succeeds. -/
theorem constructGate_catalogue_witness :
    ("Frobnicate" ∉ dispatchTable.map Prod.fst ∧
      constructGate "Frobnicate" [] = .error .UnknownGate) ∧
    ("PauliX" ∈ dispatchTable.map Prod.fst ∧
      ∃ params g, constructGate "PauliX" params = .ok g) :=
  ⟨⟨by simp [dispatchTable], constructGate_catalogue.1 "Frobnicate" []
      (by simp [dispatchTable])⟩,
   ⟨by simp [dispatchTable], constructGate_catalogue.2 "PauliX"
      (by simp [dispatchTable])⟩⟩

/-- **C9.** For every valid state (length `2^n`, `n ≥ 1`), `apply` with empty
`ops`, `wires`, `params` and `inverse` arrays returns without error and leaves
every amplitude unchanged. -/
theorem apply_empty_ops (state : StateVector) (n : ℕ) (hn : 1 ≤ n)
    (hlen : state.length = 2 ^ n) :
    apply state [] [] [] [] n = (state, none) := by
  rw [apply, if_neg (by omega), if_neg (by simp [exp2, hlen]), if_neg (by simp)]
  rfl

/-- Witness for C9: the empty circuit on a 1-qubit register. -/
theorem apply_empty_ops_witness :
    (1 ≤ 1 ∧ (StateVector.mk (fun _ => 0) 2).length = 2 ^ 1) ∧
    apply ⟨fun _ => 0, 2⟩ [] [] [] [] 1 = (⟨fun _ => 0, 2⟩, none) :=
  ⟨⟨le_refl 1, rfl⟩, apply_empty_ops ⟨fun _ => 0, 2⟩ 1 (le_refl 1) rfl⟩

/-- **C6 (code evaluation).** On the 8-double interleaved encoding of the 2×2
matrix `[[0,1],[1,0]]`, `ThreeQubitUnitary::create` computes
`numQubits = ⌊log₂ 8⌋ = 3` from the flat double count — not the arity `k = 1`
of the encoded matrix — and applying the resulting gate on the single wire
`[0]` therefore fails with `ArityMismatch` instead of acting as PauliX. -/
theorem qubitUnitary_arity_eval :
    (ThreeQubitUnitary_create [0, 0, 1, 0, 1, 0, 0, 0]).map GateInstance.numQubits
      = .ok 3 ∧
    ThreeQubitUnitary_numQubits ([0, 0, 1, 0, 1, 0, 0, 0] : List ℝ).length ≠ 1 ∧
    constructAndApplyOperation ⟨fun _ => 0, 2⟩ "QubitUnitary" [0]
      [0, 0, 1, 0, 1, 0, 0, 0] false 1 = .error .ArityMismatch := by
  have h8 : Nat.log2 8 = 3 := by
    rw [Nat.log2_eq_log_two]
    exact Nat.log_pow one_lt_two 3
  refine ⟨?_, ?_, ?_⟩
  · have h0 : (ThreeQubitUnitary_create [0, 0, 1, 0, 1, 0, 0, 0]).map GateInstance.numQubits
        = .ok (Nat.log2 8) := rfl
    rw [h0, h8]
  · show Nat.log2 8 ≠ 1
    rw [h8]
    decide
  · have hgate : constructGate "QubitUnitary" [0, 0, 1, 0, 1, 0, 0, 0]
        = .ok (mkGate 3 (qubitUnitaryEntries [0, 0, 1, 0, 1, 0, 0, 0])
            (applyKernelGeneric (qubitUnitaryEntries [0, 0, 1, 0, 1, 0, 0, 0]))
            trivialGenerator 0) := by
      have h0 : constructGate "QubitUnitary" [0, 0, 1, 0, 1, 0, 0, 0]
          = .ok (mkGate (Nat.log2 8) (qubitUnitaryEntries [0, 0, 1, 0, 1, 0, 0, 0])
              (applyKernelGeneric (qubitUnitaryEntries [0, 0, 1, 0, 1, 0, 0, 0]))
              trivialGenerator 0) := rfl
      rw [h0, h8]
    rw [constructAndApplyOperation, hgate]
    norm_num [mkGate]

/-- **C5 (code evaluation).** In the backward sweep, the multi-parameter
check precedes the state-preparation label check, so a step whose operation is
labelled `"QubitStateVector"` but carries two parameters raises
`NonDifferentiable` instead of being skipped; moreover the forward pass of
`adjointJacobian` dispatches `"QubitStateVector"` as a unitary through the
catalogue, which raises `UnknownGate` before the sweep is reached. -/
theorem adjoint_stateprep_rejected :
    adjBackLoop ["QubitStateVector"] [[0, 0]] [[0]] [] ⟨0, 4⟩ [] [0]
        [fun _ => 0] (fun _ => 0) (-1) 0
      = ([fun _ => 0], fun _ => 0, some Err.NonDifferentiable) ∧
    (adjointJacobian [fun _ => 0] ⟨0, 4⟩ (fun _ => 0) [] [] []
        ["QubitStateVector"] [[0, 0]] [[0]] [] 0).2.2 = some Err.UnknownGate :=
  ⟨rfl, rfl⟩

lemma heapGet_append (h : List QState) (b : QState) (r : ℕ) (hr : r < h.length) :
    heapGet (h ++ [b]) r = heapGet h r :=
  List.getD_append h [b] _ r hr

lemma heapGet_set_ne (h : List QState) (r r' : ℕ) (b : QState) (hne : r ≠ r') :
    heapGet (heapSet h r' b) r = heapGet h r := by
  show ((h.set r' b).get? r).getD _ = (h.get? r).getD _
  rw [List.get?_set_ne]
  omega

lemma heapSet_length (h : List QState) (r : ℕ) (b : QState) :
    (heapSet h r b).length = h.length :=
  List.length_set h r b

lemma applyHeap_fst (h : List QState) (sv : SVRef) (ops : List String)
    (wires : List (List ℕ)) (params : List (List ℝ)) (inverse : List Bool)
    (qubits : ℕ) :
    (applyHeap h sv ops wires params inverse qubits).1
      = heapSet h sv.arr
          (apply ⟨heapGet h sv.arr, sv.length⟩ ops wires params inverse qubits).1.arr := rfl

lemma capoHeap_preserves (h : List QState) (sv : SVRef) (label : String)
    (wires : List ℕ) (params : List ℝ) (inverse : Bool) (qubits : ℕ)
    (r : ℕ) (hne : r ≠ sv.arr) :
    heapGet (constructAndApplyOperationHeap h sv label wires params inverse qubits).1 r
        = heapGet h r ∧
    (constructAndApplyOperationHeap h sv label wires params inverse qubits).1.length
        = h.length := by
  unfold constructAndApplyOperationHeap
  cases constructAndApplyOperation ⟨heapGet h sv.arr, sv.length⟩ label wires params
      inverse qubits with
  | error e => exact ⟨rfl, rfl⟩
  | ok st => exact ⟨heapGet_set_ne h r sv.arr st.arr hne, heapSet_length h sv.arr st.arr⟩

lemma applyGateGeneratorHeap_preserves (h : List QState) (gate : GateInstance)
    (sv : SVRef) (opWires : List ℕ) (qubits : ℕ) (r : ℕ) (hne : r ≠ sv.arr) :
    heapGet (applyGateGeneratorHeap h gate sv opWires qubits) r = heapGet h r ∧
    (applyGateGeneratorHeap h gate sv opWires qubits).length = h.length :=
  ⟨heapGet_set_ne h r sv.arr _ hne, heapSet_length h sv.arr _⟩

lemma adjLambdasLoop_preserves (label : String) (wires : List ℕ) (params : List ℝ) :
    ∀ (refs : List SVRef) (h : List QState) (r : ℕ),
      (∀ sv ∈ refs, r ≠ sv.arr) →
      heapGet (adjLambdasLoop label wires params refs h).1 r = heapGet h r ∧
      (adjLambdasLoop label wires params refs h).1.length = h.length := by
  intro refs
  induction refs with
  | nil => exact fun h r _ => ⟨rfl, rfl⟩
  | cons sv rest ih =>
    intro h r hne
    have hsv : r ≠ sv.arr := hne sv (List.mem_cons_self sv rest)
    have hrest : ∀ x ∈ rest, r ≠ x.arr := fun x hx => hne x (List.mem_cons_of_mem sv hx)
    obtain ⟨hget, hlen⟩ := capoHeap_preserves h sv label wires params true 2 r hsv
    simp only [adjLambdasLoop]
    rcases hres : constructAndApplyOperationHeap h sv label wires params true 2
      with ⟨h1, e1⟩
    rw [hres] at hget hlen
    cases e1 with
    | none =>
      obtain ⟨ih1, ih2⟩ := ih h1 r hrest
      exact ⟨ih1.trans hget, ih2.trans hlen⟩
    | some e => exact ⟨hget, hlen⟩

lemma adjObsLoop_preserves (observables : List String) (obsParams : List (List ℝ))
    (obsWires : List (List ℕ)) (lambdaSV : SVRef) :
    ∀ (idxs : List ℕ) (h : List QState) (acc : List SVRef) (r : ℕ), r < h.length →
      heapGet (adjObsLoop observables obsParams obsWires lambdaSV idxs h acc).1 r
        = heapGet h r ∧
      h.length ≤ (adjObsLoop observables obsParams obsWires lambdaSV idxs h acc).1.length ∧
      (∀ sv ∈ (adjObsLoop observables obsParams obsWires lambdaSV idxs h acc).2.1,
        sv ∈ acc ∨ h.length ≤ sv.arr) := by
  intro idxs
  induction idxs with
  | nil => exact fun h acc r _ => ⟨rfl, le_refl _, fun sv hsv => Or.inl hsv⟩
  | cons i rest ih =>
    intro h acc r hr
    simp only [adjObsLoop]
    rcases hres : constructAndApplyOperationHeap (h ++ [heapGet h lambdaSV.arr])
        ⟨h.length, lambdaSV.length⟩ (observables.getD i "") (obsWires.getD i [])
        (obsParams.getD i []) false 2 with ⟨h2, e2⟩
    have hcapo := capoHeap_preserves (h ++ [heapGet h lambdaSV.arr])
      ⟨h.length, lambdaSV.length⟩ (observables.getD i "") (obsWires.getD i [])
      (obsParams.getD i []) false 2 r (show r ≠ h.length by omega)
    rw [hres] at hcapo
    obtain ⟨hget0, hlen0⟩ := hcapo
    have hget : heapGet h2 r = heapGet h r :=
      hget0.trans (heapGet_append h _ r hr)
    have hlen : h2.length = h.length + 1 := by
      rw [hlen0]
      simp
    cases e2 with
    | some e =>
      simp only []
      exact ⟨hget, by omega, fun sv hsv => Or.inl hsv⟩
    | none =>
      simp only []
      obtain ⟨ih1, ih2, ih3⟩ := ih h2 (acc ++ [⟨h.length, lambdaSV.length⟩]) r (by omega)
      refine ⟨ih1.trans hget, by omega, ?_⟩
      intro sv hsv
      rcases ih3 sv hsv with hmem | hge
      · rcases List.mem_append.1 hmem with hacc | hsingle
        · exact Or.inl hacc
        · have heq : sv = ⟨h.length, lambdaSV.length⟩ := List.mem_singleton.1 hsingle
          exact Or.inr (le_of_eq (congrArg SVRef.arr heq).symm)
      · exact Or.inr (by omega)

lemma adjBackLoop_preserves (operations : List String) (opParams : List (List ℝ))
    (opWires : List (List ℕ)) (trainableParams : List ℤ) (lambdaSV : SVRef)
    (lambdas : List SVRef) (bound : ℕ)
    (hL : bound ≤ lambdaSV.arr) (hbs : ∀ sv ∈ lambdas, bound ≤ sv.arr) :
    ∀ (idxs : List ℕ) (h : List QState) (jac : ℤ → ℝ) (tpn pn : ℤ),
      bound ≤ h.length → ∀ r, r < bound →
      heapGet (adjBackLoop operations opParams opWires trainableParams lambdaSV lambdas
          idxs h jac tpn pn).1 r = heapGet h r := by
  intro idxs
  induction idxs with
  | nil =>
    intro h jac tpn pn hh r hr
    rfl
  | cons i rest ih =>
    intro h jac tpn pn hh r hr
    simp only [adjBackLoop]
    by_cases hp : (opParams.getD i []).length > 1
    · rw [if_pos hp]
    · rw [if_neg hp]
      by_cases hq : (operations.getD i "") ≠ "QubitStateVector" ∧
          (operations.getD i "") ≠ "BasisState"
      · rw [if_pos hq]
        rcases hres : constructAndApplyOperationHeap (h ++ [heapGet h lambdaSV.arr])
            lambdaSV (operations.getD i "") (opWires.getD i [])
            (opParams.getD i []) true 2 with ⟨h2, e2⟩
        have hcapo := capoHeap_preserves (h ++ [heapGet h lambdaSV.arr]) lambdaSV
          (operations.getD i "") (opWires.getD i []) (opParams.getD i []) true 2 r
          (by omega)
        rw [hres] at hcapo
        obtain ⟨hget0, hlen0⟩ := hcapo
        have hget2 : heapGet h2 r = heapGet h r :=
          hget0.trans (heapGet_append h _ r (by omega))
        have hlen2 : h2.length = h.length + 1 := by
          rw [hlen0]
          simp
        cases e2 with
        | some e =>
          simp only []
          exact hget2
        | none =>
          simp only []
          by_cases hne : (opParams.getD i []) ≠ []
          · rw [if_pos hne]
            by_cases htr : pn ∈ trainableParams
            · rw [if_pos htr]
              cases hg : constructGate (operations.getD i "") (opParams.getD i [])
                with
              | error e =>
                simp only []
                exact hget2
              | ok gate =>
                simp only []
                have hgen := applyGateGeneratorHeap_preserves h2 gate
                  ⟨h.length, lambdaSV.length⟩ (opWires.getD i []) 2 r
                  (show r ≠ h.length by omega)
                obtain ⟨hget3, hlen3⟩ := hgen
                by_cases hi : i > 0
                · rw [if_pos hi]
                  rcases hll : adjLambdasLoop (operations.getD i "")
                      (opWires.getD i []) (opParams.getD i []) lambdas
                      (applyGateGeneratorHeap h2 gate ⟨h.length, lambdaSV.length⟩
                        (opWires.getD i []) 2) with ⟨h5, e5⟩
                  have hlam := adjLambdasLoop_preserves (operations.getD i "")
                    (opWires.getD i []) (opParams.getD i []) lambdas
                    (applyGateGeneratorHeap h2 gate ⟨h.length, lambdaSV.length⟩
                      (opWires.getD i []) 2) r
                    (fun sv hsv => by have := hbs sv hsv; omega)
                  rw [hll] at hlam
                  obtain ⟨hget5, hlen5⟩ := hlam
                  simp only [] at hget5 hlen5
                  cases e5 with
                  | some e =>
                    simp only []
                    exact hget5.trans (hget3.trans hget2)
                  | none =>
                    simp only []
                    have hrec := ih h5
                      (adjJacWrite
                        (applyGateGeneratorHeap h2 gate ⟨h.length, lambdaSV.length⟩
                          (opWires.getD i []) 2)
                        lambdas ⟨h.length, lambdaSV.length⟩ trainableParams.length
                        tpn RotationYGate_generatorScalingFactor jac)
                      (tpn - 1) (pn - 1) (by omega) r hr
                    exact hrec.trans (hget5.trans (hget3.trans hget2))
                · rw [if_neg hi]
                  have hrec := ih
                    (applyGateGeneratorHeap h2 gate ⟨h.length, lambdaSV.length⟩
                      (opWires.getD i []) 2)
                    (adjJacWrite
                      (applyGateGeneratorHeap h2 gate ⟨h.length, lambdaSV.length⟩
                        (opWires.getD i []) 2)
                      lambdas ⟨h.length, lambdaSV.length⟩ trainableParams.length
                      tpn RotationYGate_generatorScalingFactor jac)
                    (tpn - 1) (pn - 1) (by omega) r hr
                  exact hrec.trans (hget3.trans hget2)
            · rw [if_neg htr]
              simp only []
              by_cases hi : i > 0
              · rw [if_pos hi]
                rcases hll : adjLambdasLoop (operations.getD i "") (opWires.getD i [])
                    (opParams.getD i []) lambdas h2 with ⟨h5, e5⟩
                have hlam := adjLambdasLoop_preserves (operations.getD i "")
                  (opWires.getD i []) (opParams.getD i []) lambdas h2 r
                  (fun sv hsv => by have := hbs sv hsv; omega)
                rw [hll] at hlam
                obtain ⟨hget5, hlen5⟩ := hlam
                simp only [] at hget5 hlen5
                cases e5 with
                | some e =>
                  simp only []
                  exact hget5.trans hget2
                | none =>
                  simp only []
                  have hrec := ih h5 jac tpn (pn - 1) (by omega) r hr
                  exact hrec.trans (hget5.trans hget2)
              · rw [if_neg hi]
                exact (ih h2 jac tpn (pn - 1) (by omega) r hr).trans hget2
          · rw [if_neg hne]
            simp only []
            by_cases hi : i > 0
            · rw [if_pos hi]
              rcases hll : adjLambdasLoop (operations.getD i "") (opWires.getD i [])
                  (opParams.getD i []) lambdas h2 with ⟨h5, e5⟩
              have hlam := adjLambdasLoop_preserves (operations.getD i "")
                (opWires.getD i []) (opParams.getD i []) lambdas h2 r
                (fun sv hsv => by have := hbs sv hsv; omega)
              rw [hll] at hlam
              obtain ⟨hget5, hlen5⟩ := hlam
              simp only [] at hget5 hlen5
              cases e5 with
              | some e =>
                simp only []
                exact hget5.trans hget2
              | none =>
                simp only []
                have hrec := ih h5 jac tpn pn (by omega) r hr
                exact hrec.trans (hget5.trans hget2)
            · rw [if_neg hi]
              exact (ih h2 jac tpn pn (by omega) r hr).trans hget2
      · rw [if_neg hq]
        exact ih h jac tpn pn hh r hr

/-- **C10.** `adjointJacobian` never modifies the caller's state vector
`phi`: the forward application, the observable seeding and the backward sweep
act only on freshly allocated copies, so — whatever the outcome, normal
return or error — the buffer `phi` points to holds exactly its entry values
afterwards. -/
theorem adjointJacobian_preserves_phi (h0 : List QState) (phi : SVRef)
    (jac : ℤ → ℝ) (observables : List String) (obsParams : List (List ℝ))
    (obsWires : List (List ℕ)) (operations : List String)
    (opParams : List (List ℝ)) (opWires : List (List ℕ))
    (trainableParams : List ℤ) (paramNumber : ℤ)
    (hvalid : phi.arr < h0.length) :
    heapGet (adjointJacobian h0 phi jac observables obsParams obsWires operations
        opParams opWires trainableParams paramNumber).1 phi.arr
      = heapGet h0 phi.arr := by
  simp only [adjointJacobian]
  rcases hA : applyHeap (h0 ++ [heapGet h0 phi.arr]) ⟨h0.length, phi.length⟩
      operations opWires opParams (List.replicate operations.length false) 2
    with ⟨h2, e2⟩
  have hfst := congrArg Prod.fst hA
  rw [applyHeap_fst] at hfst
  simp only [] at hfst
  have hAget : heapGet h2 phi.arr = heapGet h0 phi.arr := by
    rw [← hfst]
    exact (heapGet_set_ne _ _ _ _ (show phi.arr ≠ h0.length by omega)).trans
      (heapGet_append h0 _ phi.arr hvalid)
  have hAlen : h2.length = h0.length + 1 := by
    have h2len : h2.length = (h0 ++ [heapGet h0 phi.arr]).length := by
      rw [← hfst, heapSet_length]
    rw [h2len]
    simp
  cases e2 with
  | some e =>
    simp only []
    exact hAget
  | none =>
    simp only []
    rcases hB : adjObsLoop observables obsParams obsWires ⟨h0.length, phi.length⟩
        (List.range observables.length) h2 [] with ⟨h3, lambdas, e3⟩
    have hobs := adjObsLoop_preserves observables obsParams obsWires
      ⟨h0.length, phi.length⟩ (List.range observables.length) h2 [] phi.arr (by omega)
    rw [hB] at hobs
    obtain ⟨hBget, hBlen, hBmem⟩ := hobs
    simp only [] at hBget hBlen hBmem
    cases e3 with
    | some e =>
      simp only []
      exact hBget.trans hAget
    | none =>
      simp only []
      have hback := adjBackLoop_preserves operations opParams opWires trainableParams
        ⟨h0.length, phi.length⟩ lambdas h0.length (le_refl h0.length)
        (fun sv hsv => by
          rcases hBmem sv hsv with hin | hge
          · exact absurd hin (List.not_mem_nil sv)
          · omega)
        ((List.range operations.length).reverse) h3 jac
        ((trainableParams.length : ℤ) - 1) paramNumber (by omega) phi.arr hvalid
      exact hback.trans (hBget.trans hAget)

/-- Witness for C10: a valid one-buffer heap and the empty circuit. -/
theorem adjointJacobian_preserves_phi_witness :
    (SVRef.mk 0 4).arr < ([fun _ => 0] : List QState).length ∧
    heapGet (adjointJacobian [fun _ => 0] ⟨0, 4⟩ (fun _ => 0)
        [] [] [] [] [] [] [] 0).1 (SVRef.mk 0 4).arr
      = heapGet [fun _ => 0] (SVRef.mk 0 4).arr :=
  ⟨by decide,
    adjointJacobian_preserves_phi [fun _ => 0] ⟨0, 4⟩ (fun _ => 0)
      [] [] [] [] [] [] [] 0 (by decide)⟩

/-- **C4 (code evaluation).** On a circuit with the single trainable gate
`PhaseShift(θ)` on wire 0 (observable PauliX on wire 0, initial state
`e₀ + e₂`), `adjointJacobian` writes
`J[0,0] = −2 · RotationYGate::generatorScalingFactor · Im⟨b|μ'⟩
        = −2 · (1/2) · sin θ`:
the scaling factor is the hardcoded RotationY constant (`Apply.cpp` 188), not
PhaseShift's own factor `s = 1`, which per the claim would give
`−2 · 1 · sin θ` — a different value whenever `sin θ ≠ 0`. -/
theorem adjointJacobian_scalingFactor_eval (θ : ℝ) (hθ : Real.sin θ ≠ 0) :
    (adjointJacobian [fun k => if k = 0 then 1 else if k = 2 then 1 else 0] ⟨0, 4⟩
        (fun _ => 0) ["PauliX"] [[]] [[0]] ["PhaseShift"] [[θ]] [[0]] [0] 0).2.1 0
      = -2 * RotationYGate_generatorScalingFactor * Real.sin θ ∧
    -2 * RotationYGate_generatorScalingFactor * Real.sin θ
      ≠ -2 * 1 * Real.sin θ := by
  constructor
  · have h1 : (adjointJacobian
          [fun k => if k = 0 then 1 else if k = 2 then 1 else 0] ⟨0, 4⟩
          (fun _ => 0) ["PauliX"] [[]] [[0]] ["PhaseShift"] [[θ]] [[0]] [0] 0).2.1 0
        = -2 * RotationYGate_generatorScalingFactor *
          (inner_product
            (applyKernelX [0, 2] [0, 1]
              (applyKernelPhaseShift θ [0, 2] [0, 1]
                (fun k => if k = 0 then 1 else if k = 2 then 1 else 0)))
            (applyGeneratorPhaseShift [0, 2] [0, 1]
              (applyKernelPhaseShift θ [0, 2] [0, 1]
                (fun k => if k = 0 then 1 else if k = 2 then 1 else 0)))
            4).im := rfl
    have h2 : inner_product
        (applyKernelX [0, 2] [0, 1]
          (applyKernelPhaseShift θ [0, 2] [0, 1]
            (fun k => if k = 0 then 1 else if k = 2 then 1 else 0)))
        (applyGeneratorPhaseShift [0, 2] [0, 1]
          (applyKernelPhaseShift θ [0, 2] [0, 1]
            (fun k => if k = 0 then 1 else if k = 2 then 1 else 0)))
        4 = phaseShiftFactor θ := by
      rw [inner_product, Finset.sum_range_succ, Finset.sum_range_succ,
        Finset.sum_range_succ, Finset.sum_range_one]
      norm_num [applyKernelX, applyKernelPhaseShift, applyGeneratorPhaseShift,
        swapAmps, Function.update_apply]
    have h3 : (phaseShiftFactor θ).im = Real.sin θ := by
      rw [phaseShiftFactor, mul_comm]
      exact Complex.exp_ofReal_mul_I_im θ
    rw [h1, h2, h3]
  · rw [RotationYGate_generatorScalingFactor]
    intro heq
    apply hθ
    linarith

/-- Witness for C4's evaluation theorem at `θ = π/2`. -/
theorem adjointJacobian_scalingFactor_eval_witness :
    Real.sin (Real.pi / 2) ≠ 0 ∧
    ((adjointJacobian [fun k => if k = 0 then 1 else if k = 2 then 1 else 0] ⟨0, 4⟩
        (fun _ => 0) ["PauliX"] [[]] [[0]] ["PhaseShift"] [[Real.pi / 2]] [[0]] [0] 0).2.1 0
      = -2 * RotationYGate_generatorScalingFactor * Real.sin (Real.pi / 2) ∧
    -2 * RotationYGate_generatorScalingFactor * Real.sin (Real.pi / 2)
      ≠ -2 * 1 * Real.sin (Real.pi / 2)) :=
  ⟨by rw [Real.sin_pi_div_two]; exact one_ne_zero,
    adjointJacobian_scalingFactor_eval (Real.pi / 2)
      (by rw [Real.sin_pi_div_two]; exact one_ne_zero)⟩

end Pennylane
